import Mathlib

/-!
Verification of the interval-aggregation and profit-analytics engine of
`statistics-bot.py` (bucket generation, event aggregation, profit metrics).

The embedding models:
* Python `decimal.Decimal` values under the working context
  `getcontext().prec = 16` (`ROUND_HALF_EVEN`).  A finite decimal value is a
  rational number; every arithmetic operation returns the exact result
  correctly rounded to 16 significant decimal digits, ties to even.  This is
  the IBM decimal-arithmetic semantics that Python decimal implements.
* Python naive `datetime` values as proleptic-Gregorian calendar records,
  with the arithmetic (`timedelta` steps, `replace`, `weekday`) that
  `floor_datetime` and `generate_buckets` use.
* The aggregation functions as folds over lists of already-decoded records
  (CSV/JSON decoding and the epoch-to-datetime conversion are collaborator
  concerns; a field that the source parses inside a `try` block is modelled
  as an `Option` holding the parse result).
-/

/- The rational-number operations of the library are `@[irreducible]` for
elaboration performance; the concrete evaluations below need them to unfold. -/
attribute [local semireducible] Rat.add Rat.mul Rat.inv Rat.sub Rat.ofScientific

namespace StatsBot

/-! ### Decimal arithmetic at precision 16, round half to even -/

/-- Round a rational to the nearest integer, ties to even
(the `ROUND_HALF_EVEN` rule of the decimal context). -/
def roundHalfEvenZ (x : ℚ) : ℤ :=
  if x - (⌊x⌋ : ℚ) < 1/2 then ⌊x⌋
  else if 1/2 < x - (⌊x⌋ : ℚ) then ⌊x⌋ + 1
  else if Even ⌊x⌋ then ⌊x⌋ else ⌊x⌋ + 1

/-- Fuel-driven decimal digit counter (structurally recursive so that it
evaluates inside the kernel). -/
def numDigits10Aux : ℕ → ℕ → ℕ
  | 0, _ => 0
  | fuel + 1, n => if n = 0 then 0 else numDigits10Aux fuel (n / 10) + 1

/-- Number of decimal digits of a natural number (0 for 0). -/
def numDigits10 (n : ℕ) : ℕ := numDigits10Aux n n

theorem numDigits10Aux_eq (fuel : ℕ) :
    ∀ n : ℕ, n ≤ fuel → numDigits10Aux fuel n = (Nat.digits 10 n).length := by
  induction fuel with
  | zero =>
      intro n hn
      interval_cases n
      simp [numDigits10Aux]
  | succ fuel ih =>
      intro n hn
      by_cases h0 : n = 0
      · subst h0
        simp [numDigits10Aux]
      · have hpos : 0 < n := Nat.pos_of_ne_zero h0
        have hlt : n / 10 < n := Nat.div_lt_self hpos (by norm_num)
        unfold numDigits10Aux
        rw [if_neg h0, ih _ (by omega),
          Nat.digits_def' (by norm_num : 1 < 10) hpos]
        simp

theorem numDigits10_eq (n : ℕ) : numDigits10 n = (Nat.digits 10 n).length :=
  numDigits10Aux_eq n n (le_refl n)

/-- Decimal-digit-count estimate of the magnitude of a rational. -/
def digitMag (q : ℚ) : ℤ :=
  (numDigits10 q.num.natAbs : ℤ) - (numDigits10 q.den : ℤ)

/-- The canonical magnitude exponent of a nonzero rational: the unique `e`
with `10 ^ (e - 1) ≤ |q| < 10 ^ e`. -/
def magExp (q : ℚ) : ℤ :=
  if |q| < (10 : ℚ) ^ digitMag q then digitMag q else digitMag q + 1

/-- Correct rounding of an exact rational result to 16 significant decimal
digits, half to even: the working precision set once by
`getcontext().prec = 16` in the source. -/
def round16 (q : ℚ) : ℚ :=
  if q = 0 then 0
  else (roundHalfEvenZ (q / (10 : ℚ) ^ (magExp q - 16)) : ℚ) * (10 : ℚ) ^ (magExp q - 16)

/-- Decimal addition under the working context (used by `+=` accumulation). -/
def add16 (a b : ℚ) : ℚ := round16 (a + b)

/-- Decimal subtraction under the working context. -/
def sub16 (a b : ℚ) : ℚ := round16 (a - b)

/-- Decimal multiplication under the working context. -/
def mul16 (a b : ℚ) : ℚ := round16 (a * b)

/-- Decimal division under the working context (a zero divisor raises in the
source; the callers model that branch explicitly before dividing). -/
def div16 (a b : ℚ) : ℚ := round16 (a / b)

theorem roundHalfEvenZ_intCast (n : ℤ) : roundHalfEvenZ (n : ℚ) = n := by
  unfold roundHalfEvenZ
  simp

theorem roundHalfEvenZ_ne_zero (x : ℚ) (hx : 1 ≤ |x|) : roundHalfEvenZ x ≠ 0 := by
  unfold roundHalfEvenZ
  rcases le_or_lt 1 x with hpos | hneg
  · have hfl : (1 : ℤ) ≤ ⌊x⌋ := Int.le_floor.mpr (by exact_mod_cast hpos)
    split_ifs <;> omega
  · have hxle : x ≤ -1 := by
      rcases abs_cases x with ⟨h1, h2⟩ | ⟨h1, h2⟩
      · exfalso
        rw [h1] at hx
        linarith
      · rw [h1] at hx
        linarith
    have hfl : ⌊x⌋ ≤ -1 := by
      have h := le_trans (Int.floor_le x) hxle
      exact_mod_cast h
    split_ifs with h1 h2 h3
    · omega
    · intro hc
      have hfeq : ⌊x⌋ = -1 := by omega
      rw [hfeq] at h2
      push_cast at h2
      linarith
    · omega
    · intro hc
      have hfeq : ⌊x⌋ = -1 := by omega
      rw [hfeq] at h1
      push_cast at h1
      linarith

theorem magExp_spec (q : ℚ) (hq : q ≠ 0) :
    (10 : ℚ) ^ (magExp q - 1) ≤ |q| ∧ |q| < (10 : ℚ) ^ (magExp q) := by
  have hnum : q.num ≠ 0 := Rat.num_ne_zero.mpr hq
  have ha : q.num.natAbs ≠ 0 := Int.natAbs_ne_zero.mpr hnum
  have hb : q.den ≠ 0 := q.den_nz
  set a : ℕ := q.num.natAbs with hadef
  set b : ℕ := q.den with hbdef
  have hbposn : 0 < b := Nat.pos_of_ne_zero hb
  have hbpos : (0 : ℚ) < (b : ℚ) := by exact_mod_cast hbposn
  have haval : |q| = (a : ℚ) / (b : ℚ) := by
    conv_lhs => rw [← Rat.num_div_den q]
    rw [abs_div]
    rw [abs_of_pos (show (0 : ℚ) < (q.den : ℚ) from by exact_mod_cast q.pos)]
    rw [hbdef]
    congr 1
    rw [hadef, ← Int.cast_abs]
    simp [Int.cast_natAbs]
  set da : ℕ := (Nat.digits 10 a).length with hda
  set db : ℕ := (Nat.digits 10 b).length with hdb
  have hdmag : digitMag q = (da : ℤ) - (db : ℤ) := by
    unfold digitMag
    rw [← hadef, ← hbdef, numDigits10_eq, numDigits10_eq, ← hda, ← hdb]
  have haub : a < 10 ^ da := hda ▸ Nat.lt_base_pow_length_digits (by norm_num)
  have hbub : b < 10 ^ db := hdb ▸ Nat.lt_base_pow_length_digits (by norm_num)
  have halb : 10 ^ da ≤ 10 * a := hda ▸ Nat.base_pow_length_digits_le 10 a (by norm_num) ha
  have hblb : 10 ^ db ≤ 10 * b := hdb ▸ Nat.base_pow_length_digits_le 10 b (by norm_num) hb
  have hda1 : 1 ≤ da := by
    by_contra h
    interval_cases da
    omega
  have hdb1 : 1 ≤ db := by
    by_contra h
    interval_cases db
    omega
  have hqlb : (10 : ℚ) ^ ((da : ℤ) - (db : ℤ) - 1) < |q| := by
    rw [haval]
    have h1 : (10 : ℚ) ^ ((da : ℤ) - 1) ≤ (a : ℚ) := by
      have hn : (10 : ℕ) ^ (da - 1) ≤ a := by
        have h10 : 10 ^ da = 10 * 10 ^ (da - 1) := by
          rw [← pow_succ']
          congr 1
          omega
        omega
      calc (10 : ℚ) ^ ((da : ℤ) - 1) = ((10 ^ (da - 1) : ℕ) : ℚ) := by
            push_cast
            rw [← zpow_natCast]
            congr 1
            omega
        _ ≤ (a : ℚ) := by exact_mod_cast hn
    have h2 : (b : ℚ) < (10 : ℚ) ^ (db : ℤ) := by
      rw [zpow_natCast]
      exact_mod_cast hbub
    have h3 : (10 : ℚ) ^ ((da : ℤ) - (db : ℤ) - 1)
        = (10 : ℚ) ^ ((da : ℤ) - 1) / (10 : ℚ) ^ (db : ℤ) := by
      rw [← zpow_sub₀ (by norm_num : (10 : ℚ) ≠ 0)]
      congr 1
      ring
    rw [h3, div_lt_div_iff₀ (by positivity) hbpos]
    calc (10 : ℚ) ^ ((da : ℤ) - 1) * (b : ℚ)
        < (10 : ℚ) ^ ((da : ℤ) - 1) * (10 : ℚ) ^ (db : ℤ) :=
          mul_lt_mul_of_pos_left h2 (by positivity)
      _ ≤ (a : ℚ) * (10 : ℚ) ^ (db : ℤ) :=
          mul_le_mul_of_nonneg_right h1 (by positivity)
  have hqub : |q| < (10 : ℚ) ^ ((da : ℤ) - (db : ℤ) + 1) := by
    rw [haval]
    have h1 : (a : ℚ) < (10 : ℚ) ^ (da : ℤ) := by
      rw [zpow_natCast]
      exact_mod_cast haub
    have h2 : (10 : ℚ) ^ ((db : ℤ) - 1) ≤ (b : ℚ) := by
      have hn : (10 : ℕ) ^ (db - 1) ≤ b := by
        have h10 : 10 ^ db = 10 * 10 ^ (db - 1) := by
          rw [← pow_succ']
          congr 1
          omega
        omega
      calc (10 : ℚ) ^ ((db : ℤ) - 1) = ((10 ^ (db - 1) : ℕ) : ℚ) := by
            push_cast
            rw [← zpow_natCast]
            congr 1
            omega
        _ ≤ (b : ℚ) := by exact_mod_cast hn
    have h3 : (10 : ℚ) ^ ((da : ℤ) - (db : ℤ) + 1)
        = (10 : ℚ) ^ (da : ℤ) / (10 : ℚ) ^ ((db : ℤ) - 1) := by
      rw [← zpow_sub₀ (by norm_num : (10 : ℚ) ≠ 0)]
      congr 1
      ring
    rw [h3, div_lt_div_iff₀ hbpos (by positivity)]
    calc (a : ℚ) * (10 : ℚ) ^ ((db : ℤ) - 1)
        ≤ (a : ℚ) * (b : ℚ) := mul_le_mul_of_nonneg_left h2 (by positivity)
      _ < (10 : ℚ) ^ (da : ℤ) * (b : ℚ) := mul_lt_mul_of_pos_right h1 hbpos
  unfold magExp
  rw [hdmag]
  by_cases hcase : |q| < (10 : ℚ) ^ ((da : ℤ) - (db : ℤ))
  · rw [if_pos hcase]
    refine ⟨le_of_lt ?_, hcase⟩
    simpa using hqlb
  · rw [if_neg hcase]
    constructor
    · simpa using not_lt.mp hcase
    · simpa using hqub

theorem round16_zero : round16 0 = 0 := by
  unfold round16
  simp

/-- Rounding is the identity on any value that already fits in 16 significant
decimal digits (an integer coefficient of magnitude below `10 ^ 16` at any
decimal exponent): decimal arithmetic is exact while no precision overflow
occurs. -/
theorem round16_eq_self_of_grid (c E : ℤ) (hc : c.natAbs < 10 ^ 16) :
    round16 ((c : ℚ) * (10 : ℚ) ^ E) = (c : ℚ) * (10 : ℚ) ^ E := by
  by_cases hc0 : c = 0
  · subst hc0
    simp [round16]
  · set q : ℚ := (c : ℚ) * (10 : ℚ) ^ E with hqdef
    have hq : q ≠ 0 :=
      mul_ne_zero (Int.cast_ne_zero.mpr hc0) (zpow_ne_zero _ (by norm_num))
    have habs : |q| = (c.natAbs : ℚ) * (10 : ℚ) ^ E := by
      rw [hqdef, abs_mul, abs_of_pos (zpow_pos (by norm_num : (0:ℚ) < 10) E)]
      congr 1
      rw [← Int.cast_abs]
      simp [Int.cast_natAbs]
    have hub : |q| < (10 : ℚ) ^ (E + 16) := by
      rw [habs, add_comm, zpow_add₀ (by norm_num : (10 : ℚ) ≠ 0)]
      apply mul_lt_mul_of_pos_right _ (zpow_pos (by norm_num) E)
      calc (c.natAbs : ℚ) < ((10 ^ 16 : ℕ) : ℚ) := by exact_mod_cast hc
        _ = (10 : ℚ) ^ (16 : ℤ) := by norm_num
    have hmle : magExp q ≤ E + 16 := by
      by_contra hcon
      push_neg at hcon
      have h1 := (magExp_spec q hq).1
      have h2 : (10 : ℚ) ^ (E + 16) ≤ (10 : ℚ) ^ (magExp q - 1) :=
        zpow_le_zpow_right₀ (by norm_num) (by omega)
      linarith
    have hsE : magExp q - 16 ≤ E := by omega
    have hdiv : q / (10 : ℚ) ^ (magExp q - 16)
        = ((c * 10 ^ (E - (magExp q - 16)).toNat : ℤ) : ℚ) := by
      push_cast
      rw [← zpow_natCast (10 : ℚ) (E - (magExp q - 16)).toNat,
        Int.toNat_of_nonneg (by omega)]
      rw [hqdef, mul_div_assoc, ← zpow_sub₀ (by norm_num : (10 : ℚ) ≠ 0)]
    unfold round16
    rw [if_neg hq, hdiv, roundHalfEvenZ_intCast, ← hdiv,
      div_mul_cancel₀ _ (zpow_ne_zero _ (by norm_num : (10 : ℚ) ≠ 0))]

/-- Rounding to 16 significant digits never turns a nonzero value into zero. -/
theorem round16_ne_zero (q : ℚ) (hq : q ≠ 0) : round16 q ≠ 0 := by
  unfold round16
  rw [if_neg hq]
  apply mul_ne_zero
  · have h1 := (magExp_spec q hq).1
    have habs : |q / (10 : ℚ) ^ (magExp q - 16)| = |q| / (10 : ℚ) ^ (magExp q - 16) := by
      rw [abs_div, abs_of_pos (zpow_pos (by norm_num : (0:ℚ) < 10) _)]
    have hge : 1 ≤ |q / (10 : ℚ) ^ (magExp q - 16)| := by
      rw [habs, le_div_iff₀ (zpow_pos (by norm_num) _), one_mul]
      calc (10 : ℚ) ^ (magExp q - 16) ≤ (10 : ℚ) ^ (magExp q - 1) :=
            zpow_le_zpow_right₀ (by norm_num) (by omega)
        _ ≤ |q| := h1
    exact_mod_cast roundHalfEvenZ_ne_zero _ hge
  · exact zpow_ne_zero _ (by norm_num)

theorem round16_eq_zero_iff (q : ℚ) : round16 q = 0 ↔ q = 0 := by
  constructor
  · intro h
    by_contra hq
    exact round16_ne_zero q hq h
  · intro h
    rw [h, round16_zero]

/-- Accumulating values that all live on a common decimal grid `10 ^ E`, with
total coefficient magnitude below `10 ^ 16`, is exact: the decimal fold
equals the exact rational sum.  This is the no-rounding regime of the
working precision. -/
theorem foldl_add16_grid (E : ℤ) (cs : List ℤ) :
    ∀ c0 : ℤ, c0.natAbs + (cs.map Int.natAbs).sum < 10 ^ 16 →
      List.foldl add16 ((c0 : ℚ) * (10 : ℚ) ^ E)
          (cs.map (fun c : ℤ => (c : ℚ) * (10 : ℚ) ^ E))
        = ((c0 + cs.sum : ℤ) : ℚ) * (10 : ℚ) ^ E := by
  induction cs with
  | nil =>
      intro c0 _
      simp only [List.map_nil, List.foldl_nil, List.sum_nil, add_zero]
  | cons c cs ih =>
      intro c0 hbound
      simp only [List.map_cons, List.foldl_cons]
      have hstep : add16 ((c0 : ℚ) * (10 : ℚ) ^ E) ((c : ℚ) * (10 : ℚ) ^ E)
          = (((c0 + c : ℤ) : ℚ)) * (10 : ℚ) ^ E := by
        unfold add16
        have : (c0 : ℚ) * (10 : ℚ) ^ E + (c : ℚ) * (10 : ℚ) ^ E
            = ((c0 + c : ℤ) : ℚ) * (10 : ℚ) ^ E := by
          push_cast
          ring
        rw [this]
        apply round16_eq_self_of_grid
        have h1 : (c0 + c).natAbs ≤ c0.natAbs + c.natAbs := Int.natAbs_add_le c0 c
        simp only [List.map_cons, List.sum_cons] at hbound
        omega
      rw [hstep]
      have hsum : c0 + (c :: cs).sum = (c0 + c) + cs.sum := by
        simp only [List.sum_cons]
        ring
      rw [hsum]
      apply ih
      have h1 : (c0 + c).natAbs ≤ c0.natAbs + c.natAbs := Int.natAbs_add_le c0 c
      simp only [List.map_cons, List.sum_cons] at hbound
      omega

/-! ### Naive datetimes (proleptic Gregorian calendar)

A Python naive `datetime` is a calendar record.  `timedelta` steps of one
hour / one day / seven days are modelled by carry-based calendar increments;
month arithmetic (`add_month` in `generate_buckets`) manipulates the fields
directly, exactly as the source does via `replace`.  Comparison of naive
datetimes is chronological order, realised through the microsecond timeline
position `toMicro` (for valid datetimes this coincides with Python
field-lexicographic comparison). -/

structure DateTime where
  year : ℕ
  month : ℕ
  day : ℕ
  hour : ℕ
  minute : ℕ
  second : ℕ
  microsecond : ℕ
deriving DecidableEq, Repr

/-- Gregorian leap-year rule. -/
def isLeap (y : ℕ) : Bool :=
  (y % 4 == 0 && y % 100 != 0) || y % 400 == 0

/-- Length of a month. -/
def daysInMonth (y m : ℕ) : ℕ :=
  match m with
  | 1 => 31 | 2 => if isLeap y then 29 else 28 | 3 => 31 | 4 => 30
  | 5 => 31 | 6 => 30 | 7 => 31 | 8 => 31 | 9 => 30 | 10 => 31
  | 11 => 30 | 12 => 31 | _ => 0

/-- Cumulative day count of the months before `m` in a non-leap year. -/
def monthTable (m : ℕ) : ℕ :=
  match m with
  | 1 => 0 | 2 => 31 | 3 => 59 | 4 => 90 | 5 => 120 | 6 => 151
  | 7 => 181 | 8 => 212 | 9 => 243 | 10 => 273 | 11 => 304 | 12 => 334
  | _ => 0

/-- Days in year `y` before the first of month `m`. -/
def daysBeforeMonth (y m : ℕ) : ℕ :=
  monthTable m + (if 2 < m ∧ isLeap y then 1 else 0)

/-- Days before January 1 of year `y` counted from 0001-01-01
(the proleptic-Gregorian ordinal origin, as in Python `date.toordinal`). -/
def daysBeforeYear (y : ℕ) : ℕ :=
  365 * (y - 1) + (y - 1) / 4 - (y - 1) / 100 + (y - 1) / 400

/-- Python `date.toordinal`: 0001-01-01 is day 1. -/
def toOrdinal (d : DateTime) : ℕ :=
  daysBeforeYear d.year + daysBeforeMonth d.year d.month + d.day

/-- Microseconds since midnight. -/
def timeUS (d : DateTime) : ℕ :=
  ((d.hour * 60 + d.minute) * 60 + d.second) * 1000000 + d.microsecond

/-- Position on the microsecond timeline since 0001-01-01 00:00:00. -/
def toMicro (d : DateTime) : ℕ :=
  (toOrdinal d - 1) * 86400000000 + timeUS d

/-- Python `datetime.weekday()`: Monday is 0 (0001-01-01 is a Monday). -/
def weekday (d : DateTime) : ℕ := (toOrdinal d + 6) % 7

/-- Validity of a datetime record (Python enforces this on construction; we
do not model the year-9999 upper bound of `datetime.MAXYEAR`). -/
def ValidDT (d : DateTime) : Prop :=
  1 ≤ d.year ∧ 1 ≤ d.month ∧ d.month ≤ 12 ∧ 1 ≤ d.day ∧
    d.day ≤ daysInMonth d.year d.month ∧ d.hour ≤ 23 ∧ d.minute ≤ 59 ∧
    d.second ≤ 59 ∧ d.microsecond ≤ 999999

instance (d : DateTime) : Decidable (ValidDT d) := by
  unfold ValidDT
  infer_instance

/-- Chronological comparison of naive datetimes. -/
def dtLe (a b : DateTime) : Prop := toMicro a ≤ toMicro b

/-- Strict chronological comparison of naive datetimes. -/
def dtLt (a b : DateTime) : Prop := toMicro a < toMicro b

instance (a b : DateTime) : Decidable (dtLe a b) :=
  inferInstanceAs (Decidable (toMicro a ≤ toMicro b))

instance (a b : DateTime) : Decidable (dtLt a b) :=
  inferInstanceAs (Decidable (toMicro a < toMicro b))

/-- `d + timedelta(days=1)`. -/
def addDay (d : DateTime) : DateTime :=
  if d.day < daysInMonth d.year d.month then { d with day := d.day + 1 }
  else if d.month < 12 then { d with month := d.month + 1, day := 1 }
  else { d with year := d.year + 1, month := 1, day := 1 }

/-- `d + timedelta(days=n)`. -/
def addDays : ℕ → DateTime → DateTime
  | 0, d => d
  | n + 1, d => addDays n (addDay d)

/-- `d + timedelta(hours=1)`. -/
def addHour (d : DateTime) : DateTime :=
  if d.hour < 23 then { d with hour := d.hour + 1 }
  else addDay { d with hour := 0 }

/-- `d - timedelta(days=1)`. -/
def subDay (d : DateTime) : DateTime :=
  if 1 < d.day then { d with day := d.day - 1 }
  else if 1 < d.month then
    { d with month := d.month - 1, day := daysInMonth d.year (d.month - 1) }
  else { d with year := d.year - 1, month := 12, day := 31 }

/-- `d - timedelta(days=n)`. -/
def subDays : ℕ → DateTime → DateTime
  | 0, d => d
  | n + 1, d => subDays n (subDay d)

/-- The four supported granularities of `floor_datetime`. -/
inductive Interval where
  | hour
  | day
  | week
  | month
deriving DecidableEq, Repr

/-- The string dispatch performed by the `if interval == ...` chains of the
source; an unmatched string reaches the `raise ValueError` branch. -/
def parseInterval (s : String) : Option Interval :=
  if s = "hour" then some Interval.hour
  else if s = "day" then some Interval.day
  else if s = "week" then some Interval.week
  else if s = "month" then some Interval.month
  else none

/-- The core of `floor_datetime`: round a datetime down to the start of the
given interval (`replace` on the fields; for week, subtract `weekday()` days
first, as the source does). -/
def floorDT (dt : DateTime) : Interval → DateTime
  | Interval.hour => { dt with minute := 0, second := 0, microsecond := 0 }
  | Interval.day => { dt with hour := 0, minute := 0, second := 0, microsecond := 0 }
  | Interval.week =>
      let start := subDays (weekday dt) dt
      { start with hour := 0, minute := 0, second := 0, microsecond := 0 }
  | Interval.month =>
      { dt with day := 1, hour := 0, minute := 0, second := 0, microsecond := 0 }

/-- Python exceptions that the modelled code can raise. -/
inductive PyErr where
  | valueError (msg : String)
deriving DecidableEq, Repr

deriving instance DecidableEq for Except

/-- `floor_datetime(dt, interval)`: rounds down, or raises `ValueError` for
an unsupported interval string. -/
def floor_datetime (dt : DateTime) (interval : String) : Except PyErr DateTime :=
  match parseInterval interval with
  | some iv => Except.ok (floorDT dt iv)
  | none => Except.error (PyErr.valueError ("Unsupported interval: " ++ interval))

/-- The `add_month` helper inside `generate_buckets`: move to the first day
of the next calendar month (time-of-day fields are kept, as `replace` does). -/
def add_month (d : DateTime) : DateTime :=
  if d.month = 12 then { d with year := d.year + 1, month := 1, day := 1 }
  else { d with month := d.month + 1, day := 1 }

/-- The per-iteration step of the `while current <= end` loop of
`generate_buckets`. -/
def nextBucket : Interval → DateTime → DateTime
  | Interval.hour => addHour
  | Interval.day => addDay
  | Interval.week => addDays 7
  | Interval.month => add_month

/-- The `while current <= end` loop of `generate_buckets`.  The loop of the
source terminates because every step strictly advances `current`; the fuel
argument bounds the iteration count and is chosen large enough that it never
cuts a run short (`genBucketsI` passes `toMicro end + 1`, and one bucket is
emitted per elapsed microsecond at most). -/
def genLoop (next : DateTime → DateTime) (endD : DateTime) :
    ℕ → DateTime → List DateTime
  | 0, _ => []
  | fuel + 1, cur =>
      if dtLe cur endD then cur :: genLoop next endD fuel (next cur) else []

/-- `generate_buckets` for an already-validated granularity. -/
def genBucketsI (fromD toD : DateTime) (iv : Interval) : List DateTime :=
  genLoop (nextBucket iv) (floorDT toD iv) (toMicro (floorDT toD iv) + 1)
    (floorDT fromD iv)

/-- `generate_buckets(from_dt, to_dt, interval)`: floors both endpoints and
walks forward one step at a time; an unsupported interval string raises
`ValueError` (from the `floor_datetime(from_dt, interval)` call, which runs
first). -/
def generate_buckets (fromD toD : DateTime) (interval : String) :
    Except PyErr (List DateTime) :=
  match parseInterval interval with
  | none => Except.error (PyErr.valueError ("Unsupported interval: " ++ interval))
  | some iv => Except.ok (genBucketsI fromD toD iv)

/-! ### Calendar arithmetic lemmas -/

theorem daysInMonth_pos (y m : ℕ) (h1 : 1 ≤ m) (h2 : m ≤ 12) :
    1 ≤ daysInMonth y m := by
  interval_cases m <;> simp [daysInMonth] <;> split <;> norm_num

theorem daysInMonth_le (y m : ℕ) : daysInMonth y m ≤ 31 := by
  unfold daysInMonth
  split <;> (try split) <;> norm_num

theorem daysBeforeMonth_succ (y m : ℕ) (h1 : 1 ≤ m) (h2 : m ≤ 11) :
    daysBeforeMonth y (m + 1) = daysBeforeMonth y m + daysInMonth y m := by
  by_cases hL : isLeap y
  all_goals interval_cases m <;>
    simp [daysBeforeMonth, daysInMonth, monthTable, hL]

theorem daysBeforeMonth_one (y : ℕ) : daysBeforeMonth y 1 = 0 := by
  simp [daysBeforeMonth, monthTable]

theorem daysBeforeMonth_mono (y : ℕ) {m m' : ℕ} (h1 : 1 ≤ m) (hle : m ≤ m')
    (h2 : m' ≤ 12) : daysBeforeMonth y m ≤ daysBeforeMonth y m' := by
  induction m', hle using Nat.le_induction with
  | base => exact le_refl _
  | succ n hn ih =>
      have h12 : n ≤ 11 := by omega
      calc daysBeforeMonth y m ≤ daysBeforeMonth y n := ih (by omega)
        _ ≤ daysBeforeMonth y n + daysInMonth y n := Nat.le_add_right _ _
        _ = daysBeforeMonth y (n + 1) := (daysBeforeMonth_succ y n (by omega) h12).symm

theorem daysBeforeMonth_add_le (y m : ℕ) (h1 : 1 ≤ m) (h2 : m ≤ 12) :
    daysBeforeMonth y m + daysInMonth y m ≤ 365 + (if isLeap y then 1 else 0) := by
  by_cases hm : m ≤ 11
  · rw [← daysBeforeMonth_succ y m h1 hm]
    calc daysBeforeMonth y (m + 1) ≤ daysBeforeMonth y 12 :=
          daysBeforeMonth_mono y (by omega) (by omega) (by omega)
      _ ≤ 365 + (if isLeap y then 1 else 0) := by
          by_cases hL : isLeap y <;> simp [daysBeforeMonth, monthTable, hL]
  · have hm12 : m = 12 := by omega
    subst hm12
    by_cases hL : isLeap y <;> simp [daysBeforeMonth, daysInMonth, monthTable, hL]

theorem isLeap_iff (y : ℕ) :
    isLeap y = true ↔ ((4 ∣ y ∧ ¬(100 ∣ y)) ∨ 400 ∣ y) := by
  unfold isLeap
  simp [Nat.dvd_iff_mod_eq_zero]

theorem daysBeforeYear_succ (y : ℕ) (hy : 1 ≤ y) :
    daysBeforeYear (y + 1)
      = daysBeforeYear y + 365 + (if isLeap y then 1 else 0) := by
  obtain ⟨k, rfl⟩ : ∃ k, y = k + 1 := ⟨y - 1, by omega⟩
  unfold daysBeforeYear
  simp only [Nat.add_sub_cancel]
  have h4 := Nat.succ_div k 4
  have h100 := Nat.succ_div k 100
  have h400 := Nat.succ_div k 400
  have hd1 : k / 100 ≤ k / 4 := Nat.div_le_div_left (by norm_num) (by norm_num)
  have hd2 : (k + 1) / 100 ≤ (k + 1) / 4 :=
    Nat.div_le_div_left (by norm_num) (by norm_num)
  have himp1 : (400 : ℕ) ∣ (k + 1) → (100 : ℕ) ∣ (k + 1) :=
    fun h => dvd_trans (by norm_num) h
  have himp2 : (100 : ℕ) ∣ (k + 1) → (4 : ℕ) ∣ (k + 1) :=
    fun h => dvd_trans (by norm_num) h
  by_cases hL : isLeap (k + 1)
  · rw [if_pos hL]
    rw [isLeap_iff] at hL
    rcases hL with ⟨hA, hB⟩ | hC
    · rw [if_pos hA] at h4
      rw [if_neg hB] at h100
      have : ¬(400 : ℕ) ∣ (k + 1) := fun h => hB (himp1 h)
      rw [if_neg this] at h400
      omega
    · rw [if_pos hC] at h400
      rw [if_pos (himp1 hC)] at h100
      rw [if_pos (himp2 (himp1 hC))] at h4
      omega
  · rw [if_neg hL]
    rw [isLeap_iff] at hL
    push_neg at hL
    obtain ⟨hAB, hC⟩ := hL
    rw [if_neg hC] at h400
    by_cases hA : (4 : ℕ) ∣ (k + 1)
    · have hB : (100 : ℕ) ∣ (k + 1) := hAB hA
      rw [if_pos hA] at h4
      rw [if_pos hB] at h100
      omega
    · have hB : ¬(100 : ℕ) ∣ (k + 1) := fun h => hA (himp2 h)
      rw [if_neg hA] at h4
      rw [if_neg hB] at h100
      omega

theorem daysBeforeYear_one : daysBeforeYear 1 = 0 := by
  simp [daysBeforeYear]

theorem daysBeforeYear_mono {y y' : ℕ} (h1 : 1 ≤ y) (hle : y ≤ y') :
    daysBeforeYear y ≤ daysBeforeYear y' := by
  induction y', hle using Nat.le_induction with
  | base => exact le_refl _
  | succ n hn ih =>
      have h := daysBeforeYear_succ n (by omega)
      omega

theorem ord_pos (d : DateTime) : 1 ≤ toOrdinal d ∨ d.day = 0 := by
  unfold toOrdinal
  omega

theorem ord_pos_of_valid (d : DateTime) (hv : ValidDT d) : 1 ≤ toOrdinal d := by
  obtain ⟨_, _, _, h4, _⟩ := hv
  unfold toOrdinal
  omega

theorem timeUS_lt (d : DateTime) (hv : ValidDT d) : timeUS d < 86400000000 := by
  obtain ⟨_, _, _, _, _, h6, h7, h8, h9⟩ := hv
  unfold timeUS
  omega

theorem addDay_spec (d : DateTime) (hv : ValidDT d) :
    ValidDT (addDay d) ∧ toOrdinal (addDay d) = toOrdinal d + 1 ∧
      timeUS (addDay d) = timeUS d := by
  obtain ⟨h1, h2, h3, h4, h5, h6, h7, h8, h9⟩ := hv
  unfold addDay
  split_ifs with c1 c2
  · refine ⟨?_, ?_, rfl⟩
    · unfold ValidDT
      dsimp only
      omega
    · unfold toOrdinal
      dsimp only
      omega
  · have hd : d.day = daysInMonth d.year d.month := by omega
    have hbm := daysBeforeMonth_succ d.year d.month h2 (by omega)
    have hpos := daysInMonth_pos d.year (d.month + 1) (by omega) (by omega)
    refine ⟨?_, ?_, rfl⟩
    · unfold ValidDT
      dsimp only
      omega
    · unfold toOrdinal
      dsimp only
      omega
  · have hm : d.month = 12 := by omega
    have hdim12 : daysInMonth d.year 12 = 31 := rfl
    have hd : d.day = 31 := by
      rw [hm] at h5 c1
      omega
    have hby := daysBeforeYear_succ d.year h1
    have hbm12 : daysBeforeMonth d.year 12 = 334 + (if isLeap d.year then 1 else 0) := by
      by_cases hL : isLeap d.year <;> simp [daysBeforeMonth, monthTable, hL]
    have hpos := daysInMonth_pos (d.year + 1) 1 (le_refl 1) (by omega)
    refine ⟨?_, ?_, rfl⟩
    · unfold ValidDT
      dsimp only
      omega
    · unfold toOrdinal
      dsimp only
      rw [daysBeforeMonth_one, hm]
      omega

theorem addDays_spec (n : ℕ) :
    ∀ d : DateTime, ValidDT d →
      ValidDT (addDays n d) ∧ toOrdinal (addDays n d) = toOrdinal d + n ∧
        timeUS (addDays n d) = timeUS d := by
  induction n with
  | zero =>
      intro d hv
      exact ⟨hv, by simp [addDays], rfl⟩
  | succ n ih =>
      intro d hv
      obtain ⟨hv1, ho1, ht1⟩ := addDay_spec d hv
      obtain ⟨hv2, ho2, ht2⟩ := ih (addDay d) hv1
      refine ⟨hv2, ?_, ?_⟩
      · show toOrdinal (addDays n (addDay d)) = _
        omega
      · show timeUS (addDays n (addDay d)) = _
        omega

theorem subDay_spec (d : DateTime) (hv : ValidDT d) (h2o : 2 ≤ toOrdinal d) :
    ValidDT (subDay d) ∧ toOrdinal (subDay d) = toOrdinal d - 1 ∧
      timeUS (subDay d) = timeUS d := by
  obtain ⟨h1, h2, h3, h4, h5, h6, h7, h8, h9⟩ := hv
  unfold subDay
  split_ifs with c1 c2
  · refine ⟨?_, ?_, rfl⟩
    · unfold ValidDT
      dsimp only
      omega
    · unfold toOrdinal
      dsimp only
      omega
  · have hd1 : d.day = 1 := by omega
    have hbm := daysBeforeMonth_succ d.year (d.month - 1) (by omega) (by omega)
    have hmr : d.month - 1 + 1 = d.month := by omega
    rw [hmr] at hbm
    have hpos := daysInMonth_pos d.year (d.month - 1) (by omega) (by omega)
    refine ⟨?_, ?_, rfl⟩
    · unfold ValidDT
      dsimp only
      omega
    · unfold toOrdinal
      dsimp only
      omega
  · have hd1 : d.day = 1 := by omega
    have hm1 : d.month = 1 := by omega
    have hy2 : 2 ≤ d.year := by
      by_contra hy
      have hy1 : d.year = 1 := by omega
      rw [toOrdinal, hy1, hm1, daysBeforeYear_one, daysBeforeMonth_one] at h2o
      omega
    have hby := daysBeforeYear_succ (d.year - 1) (by omega)
    have hyr : d.year - 1 + 1 = d.year := by omega
    rw [hyr] at hby
    have hbm12 : daysBeforeMonth (d.year - 1) 12
        = 334 + (if isLeap (d.year - 1) then 1 else 0) := by
      by_cases hL : isLeap (d.year - 1) <;> simp [daysBeforeMonth, monthTable, hL]
    have hdim : daysInMonth (d.year - 1) 12 = 31 := rfl
    refine ⟨?_, ?_, rfl⟩
    · unfold ValidDT
      dsimp only
      omega
    · unfold toOrdinal
      dsimp only
      rw [hm1, daysBeforeMonth_one]
      omega

theorem subDays_spec (n : ℕ) :
    ∀ d : DateTime, ValidDT d → n + 1 ≤ toOrdinal d →
      ValidDT (subDays n d) ∧ toOrdinal (subDays n d) = toOrdinal d - n ∧
        timeUS (subDays n d) = timeUS d := by
  induction n with
  | zero =>
      intro d hv _
      exact ⟨hv, by simp [subDays], rfl⟩
  | succ n ih =>
      intro d hv hord
      obtain ⟨hv1, ho1, ht1⟩ := subDay_spec d hv (by omega)
      obtain ⟨hv2, ho2, ht2⟩ := ih (subDay d) hv1 (by omega)
      refine ⟨hv2, ?_, ?_⟩
      · show toOrdinal (subDays n (subDay d)) = _
        omega
      · show timeUS (subDays n (subDay d)) = _
        omega

theorem toMicro_addDay (d : DateTime) (hv : ValidDT d) :
    toMicro (addDay d) = toMicro d + 86400000000 := by
  obtain ⟨hv1, ho, ht⟩ := addDay_spec d hv
  have h1 := ord_pos_of_valid d hv
  unfold toMicro
  rw [ho, ht]
  omega

theorem addHour_spec (d : DateTime) (hv : ValidDT d) :
    ValidDT (addHour d) ∧ toMicro (addHour d) = toMicro d + 3600000000 := by
  obtain ⟨h1, h2, h3, h4, h5, h6, h7, h8, h9⟩ := hv
  unfold addHour
  split_ifs with c1
  · refine ⟨?_, ?_⟩
    · unfold ValidDT
      dsimp only
      omega
    · unfold toMicro toOrdinal timeUS
      dsimp only
      omega
  · have hh : d.hour = 23 := by omega
    set d0 : DateTime := { d with hour := 0 } with hd0
    have hv0 : ValidDT d0 := by
      rw [hd0]
      unfold ValidDT
      dsimp only
      omega
    obtain ⟨hv1, ho, ht⟩ := addDay_spec d0 hv0
    have hordeq : toOrdinal d0 = toOrdinal d := rfl
    have htime : timeUS d0 + 23 * 3600000000 = timeUS d := by
      simp only [timeUS, hd0, hh]
      omega
    have h1o := ord_pos_of_valid d0 hv0
    refine ⟨hv1, ?_⟩
    unfold toMicro
    rw [ho, ht, hordeq]
    omega

theorem toMicro_addDays (n : ℕ) (d : DateTime) (hv : ValidDT d) :
    toMicro (addDays n d) = toMicro d + n * 86400000000 := by
  obtain ⟨hv1, ho, ht⟩ := addDays_spec n d hv
  have h1 := ord_pos_of_valid d hv
  unfold toMicro
  rw [ho, ht]
  omega

theorem ord_le_dby_succ (d : DateTime) (hv : ValidDT d) :
    toOrdinal d ≤ daysBeforeYear (d.year + 1) := by
  obtain ⟨h1, h2, h3, h4, h5, _⟩ := hv
  have hle := daysBeforeMonth_add_le d.year d.month h2 h3
  have hby := daysBeforeYear_succ d.year h1
  unfold toOrdinal
  omega

theorem dby_lt_ord (d : DateTime) (hv : ValidDT d) :
    daysBeforeYear d.year < toOrdinal d := by
  obtain ⟨h1, h2, h3, h4, h5, _⟩ := hv
  unfold toOrdinal
  omega

theorem toOrdinal_inj (d d' : DateTime) (hv : ValidDT d) (hv' : ValidDT d')
    (h : toOrdinal d = toOrdinal d') :
    d.year = d'.year ∧ d.month = d'.month ∧ d.day = d'.day := by
  have hy : d.year = d'.year := by
    by_contra hne
    rcases Nat.lt_or_ge d.year d'.year with hlt | hge
    · have b1 := ord_le_dby_succ d hv
      have b2 := dby_lt_ord d' hv'
      have b3 : daysBeforeYear (d.year + 1) ≤ daysBeforeYear d'.year :=
        daysBeforeYear_mono (by omega) (by omega)
      omega
    · have hlt : d'.year < d.year := by omega
      have b1 := ord_le_dby_succ d' hv'
      have b2 := dby_lt_ord d hv
      have b3 : daysBeforeYear (d'.year + 1) ≤ daysBeforeYear d.year :=
        daysBeforeYear_mono (by omega) (by omega)
      omega
  obtain ⟨h1, h2, h3, h4, h5, _⟩ := hv
  obtain ⟨g1, g2, g3, g4, g5, _⟩ := hv'
  rw [toOrdinal, toOrdinal, hy] at h
  have h2m : daysBeforeMonth d'.year d.month + d.day
      = daysBeforeMonth d'.year d'.month + d'.day := by omega
  rw [hy] at h5
  have hm : d.month = d'.month := by
    by_contra hne
    rcases Nat.lt_or_ge d.month d'.month with hlt | hge
    · have s1 := daysBeforeMonth_succ d'.year d.month h2 (by omega)
      have s2 : daysBeforeMonth d'.year (d.month + 1)
          ≤ daysBeforeMonth d'.year d'.month :=
        daysBeforeMonth_mono d'.year (by omega) (by omega) g3
      omega
    · have hlt : d'.month < d.month := by omega
      have s1 := daysBeforeMonth_succ d'.year d'.month g2 (by omega)
      have s2 : daysBeforeMonth d'.year (d'.month + 1)
          ≤ daysBeforeMonth d'.year d.month :=
        daysBeforeMonth_mono d'.year (by omega) (by omega) h3
      omega
  rw [hm] at h2m
  exact ⟨hy, hm, by omega⟩

theorem toMicro_inj (d d' : DateTime) (hv : ValidDT d) (hv' : ValidDT d')
    (h : toMicro d = toMicro d') : d = d' := by
  have l1 := timeUS_lt d hv
  have l2 := timeUS_lt d' hv'
  have o1 := ord_pos_of_valid d hv
  have o2 := ord_pos_of_valid d' hv'
  unfold toMicro at h
  have hord : toOrdinal d = toOrdinal d' := by omega
  have htime : timeUS d = timeUS d' := by omega
  obtain ⟨hy, hm, hd⟩ := toOrdinal_inj d d' hv hv' hord
  obtain ⟨_, _, _, _, _, h6, h7, h8, h9⟩ := hv
  obtain ⟨_, _, _, _, _, g6, g7, g8, g9⟩ := hv'
  unfold timeUS at htime
  have hh : d.hour = d'.hour := by omega
  have hmin : d.minute = d'.minute := by omega
  have hs : d.second = d'.second := by omega
  have hus : d.microsecond = d'.microsecond := by omega
  cases d
  cases d'
  simp only [DateTime.mk.injEq]
  exact ⟨hy, hm, hd, hh, hmin, hs, hus⟩

/-! ### Floor characterisations on the microsecond timeline -/

theorem floorDT_hour_spec (d : DateTime) (hv : ValidDT d) :
    ValidDT (floorDT d Interval.hour) ∧
      toMicro (floorDT d Interval.hour) = 3600000000 * (toMicro d / 3600000000) := by
  obtain ⟨h1, h2, h3, h4, h5, h6, h7, h8, h9⟩ := hv
  constructor
  · unfold floorDT ValidDT
    dsimp only
    omega
  · unfold floorDT toMicro toOrdinal timeUS
    dsimp only
    omega

theorem floorDT_day_spec (d : DateTime) (hv : ValidDT d) :
    ValidDT (floorDT d Interval.day) ∧
      toMicro (floorDT d Interval.day) = 86400000000 * (toMicro d / 86400000000) := by
  obtain ⟨h1, h2, h3, h4, h5, h6, h7, h8, h9⟩ := hv
  constructor
  · unfold floorDT ValidDT
    dsimp only
    omega
  · unfold floorDT toMicro toOrdinal timeUS
    dsimp only
    omega

theorem weekday_le (d : DateTime) (hv : ValidDT d) :
    weekday d + 1 ≤ toOrdinal d := by
  have h1 := ord_pos_of_valid d hv
  unfold weekday
  omega

theorem floorDT_week_spec (d : DateTime) (hv : ValidDT d) :
    ValidDT (floorDT d Interval.week) ∧
      toMicro (floorDT d Interval.week) = 604800000000 * (toMicro d / 604800000000) := by
  have hw := weekday_le d hv
  obtain ⟨hvs, hos, hts⟩ := subDays_spec (weekday d) d hv hw
  have h1 := ord_pos_of_valid d hv
  have hlt := timeUS_lt d hv
  obtain ⟨s1, s2, s3, s4, s5, s6, s7, s8, s9⟩ := hvs
  constructor
  · unfold floorDT
    dsimp only
    unfold ValidDT at *
    dsimp only
    refine ⟨s1, s2, s3, s4, s5, by omega, by omega, by omega, by omega⟩
  · unfold floorDT
    dsimp only
    have hord : toOrdinal { subDays (weekday d) d with
        hour := 0, minute := 0, second := 0, microsecond := 0 }
        = toOrdinal (subDays (weekday d) d) := rfl
    have htime : timeUS { subDays (weekday d) d with
        hour := 0, minute := 0, second := 0, microsecond := 0 } = 0 := by
      unfold timeUS
      dsimp only
    unfold toMicro
    rw [hord, htime, hos]
    unfold toMicro at *
    unfold weekday at *
    omega

theorem floorDT_month_spec (d : DateTime) (hv : ValidDT d) :
    ValidDT (floorDT d Interval.month) ∧
      (floorDT d Interval.month).day = 1 ∧
      (floorDT d Interval.month).hour = 0 ∧
      (floorDT d Interval.month).minute = 0 ∧
      (floorDT d Interval.month).second = 0 ∧
      (floorDT d Interval.month).microsecond = 0 ∧
      toMicro (floorDT d Interval.month)
        = (daysBeforeYear d.year + daysBeforeMonth d.year d.month) * 86400000000 := by
  obtain ⟨h1, h2, h3, h4, h5, h6, h7, h8, h9⟩ := hv
  have hpos := daysInMonth_pos d.year d.month h2 h3
  refine ⟨?_, rfl, rfl, rfl, rfl, rfl, ?_⟩
  · unfold floorDT ValidDT
    dsimp only
    omega
  · unfold floorDT toMicro toOrdinal timeUS
    dsimp only
    omega

/-! ### Month-start arithmetic -/

/-- A bucket produced by month granularity: midnight of the first of a month. -/
def MonthStart (d : DateTime) : Prop :=
  ValidDT d ∧ d.day = 1 ∧ d.hour = 0 ∧ d.minute = 0 ∧ d.second = 0 ∧
    d.microsecond = 0

/-- Count of calendar months before `(year, month)`. -/
def monthIdx (d : DateTime) : ℕ := 12 * (d.year - 1) + (d.month - 1)

theorem monthStart_toMicro (d : DateTime) (h : MonthStart d) :
    toMicro d = (daysBeforeYear d.year + daysBeforeMonth d.year d.month)
      * 86400000000 := by
  obtain ⟨⟨h1, h2, h3, h4, h5, _⟩, hd, hh, hm, hs, hus⟩ := h
  unfold toMicro toOrdinal timeUS
  rw [hd, hh, hm, hs, hus]
  omega

theorem add_month_spec (d : DateTime) (h : MonthStart d) :
    MonthStart (add_month d) ∧ monthIdx (add_month d) = monthIdx d + 1 := by
  obtain ⟨⟨h1, h2, h3, h4, h5, h6, h7, h8, h9⟩, hd, hh, hm, hs, hus⟩ := h
  unfold add_month
  split_ifs with c1
  · have hpos := daysInMonth_pos (d.year + 1) 1 (le_refl 1) (by omega)
    refine ⟨⟨?_, rfl, hh, hm, hs, hus⟩, ?_⟩
    · unfold ValidDT
      dsimp only
      omega
    · unfold monthIdx
      dsimp only
      omega
  · have hpos := daysInMonth_pos d.year (d.month + 1) (by omega) (by omega)
    refine ⟨⟨?_, rfl, hh, hm, hs, hus⟩, ?_⟩
    · unfold ValidDT
      dsimp only
      omega
    · unfold monthIdx
      dsimp only
      omega

theorem daysBeforeMonth_le_334 (y m : ℕ) (h1 : 1 ≤ m) (h2 : m ≤ 12) :
    daysBeforeMonth y m ≤ 334 + (if isLeap y then 1 else 0) := by
  calc daysBeforeMonth y m ≤ daysBeforeMonth y 12 :=
        daysBeforeMonth_mono y h1 h2 (le_refl 12)
    _ ≤ 334 + (if isLeap y then 1 else 0) := by
        by_cases hL : isLeap y <;> simp [daysBeforeMonth, monthTable, hL]

theorem monthKey_strict (y m y' m' : ℕ) (hy : 1 ≤ y) (hm1 : 1 ≤ m) (hm2 : m ≤ 12)
    (hy' : 1 ≤ y') (hm1' : 1 ≤ m') (hm2' : m' ≤ 12)
    (hlex : y < y' ∨ (y = y' ∧ m < m')) :
    daysBeforeYear y + daysBeforeMonth y m
      < daysBeforeYear y' + daysBeforeMonth y' m' := by
  rcases hlex with hlt | ⟨rfl, hlt⟩
  · have b1 := daysBeforeMonth_le_334 y m hm1 hm2
    have b2 := daysBeforeYear_succ y hy
    have b3 : daysBeforeYear (y + 1) ≤ daysBeforeYear y' :=
      daysBeforeYear_mono (by omega) (by omega)
    omega
  · have s1 := daysBeforeMonth_succ y m hm1 (by omega)
    have s2 : daysBeforeMonth y (m + 1) ≤ daysBeforeMonth y m' :=
      daysBeforeMonth_mono y (by omega) (by omega) hm2'
    have hpos := daysInMonth_pos y m hm1 hm2
    omega

theorem monthIdx_lt_iff (d d' : DateTime) (h : MonthStart d) (h' : MonthStart d') :
    toMicro d < toMicro d' ↔ monthIdx d < monthIdx d' := by
  have hmic := monthStart_toMicro d h
  have hmic' := monthStart_toMicro d' h'
  obtain ⟨⟨h1, h2, h3, _⟩, _⟩ := h
  obtain ⟨⟨g1, g2, g3, _⟩, _⟩ := h'
  rw [hmic, hmic']
  constructor
  · intro hlt
    by_contra hcon
    push_neg at hcon
    rcases Nat.lt_or_ge (monthIdx d') (monthIdx d) with hc | hc
    · have hlex : d'.year < d.year ∨ (d'.year = d.year ∧ d'.month < d.month) := by
        unfold monthIdx at hc
        omega
      have := monthKey_strict d'.year d'.month d.year d.month g1 g2 g3 h1 h2 h3 hlex
      omega
    · have heq : monthIdx d = monthIdx d' := by omega
      have hyy : d.year = d'.year ∧ d.month = d'.month := by
        unfold monthIdx at heq
        omega
      rw [hyy.1, hyy.2] at hlt
      omega
  · intro hlt
    have hlex : d.year < d'.year ∨ (d.year = d'.year ∧ d.month < d'.month) := by
      unfold monthIdx at hlt
      omega
    have := monthKey_strict d.year d.month d'.year d'.month h1 h2 h3 g1 g2 g3 hlex
    omega

theorem monthIdx_inj (d d' : DateTime) (h : MonthStart d) (h' : MonthStart d')
    (heq : monthIdx d = monthIdx d') : d = d' := by
  obtain ⟨⟨h1, h2, h3, _⟩, hd, hh, hm, hs, hus⟩ := h
  obtain ⟨⟨g1, g2, g3, _⟩, gd, gh, gm, gs, gus⟩ := h'
  have hyy : d.year = d'.year ∧ d.month = d'.month := by
    unfold monthIdx at heq
    omega
  cases d
  cases d'
  simp only [DateTime.mk.injEq]
  simp only at hyy hd hh hm hs hus gd gh gm gs gus
  exact ⟨hyy.1, hyy.2, by omega, by omega, by omega, by omega, by omega⟩

theorem monthIdx_le_toMicro (d : DateTime) (h : MonthStart d) :
    monthIdx d ≤ toMicro d := by
  have hmic := monthStart_toMicro d h
  obtain ⟨⟨h1, h2, h3, _⟩, _⟩ := h
  rw [hmic]
  unfold monthIdx
  have hb : 365 * (d.year - 1) ≤ daysBeforeYear d.year := by
    unfold daysBeforeYear
    have : (d.year - 1) / 100 ≤ (d.year - 1) / 4 :=
      Nat.div_le_div_left (by norm_num) (by norm_num)
    omega
  have hm : 2 ≤ d.month → 31 ≤ daysBeforeMonth d.year d.month := by
    intro hm2
    calc (31 : ℕ) ≤ daysBeforeMonth d.year 2 := by
          by_cases hL : isLeap d.year <;> simp [daysBeforeMonth, monthTable, hL]
      _ ≤ daysBeforeMonth d.year d.month :=
          daysBeforeMonth_mono d.year (by omega) hm2 h3
  by_cases hm2 : 2 ≤ d.month
  · have := hm hm2
    omega
  · have hm1 : d.month = 1 := by omega
    omega

/-! ### The bucket-generation loop -/

theorem genLoop_nil (next : DateTime → DateTime) (e cur : DateTime) (fuel : ℕ)
    (h : ¬ dtLe cur e) : genLoop next e fuel cur = [] := by
  cases fuel <;> simp [genLoop, h]

theorem genLoop_spec (next : DateTime → DateTime) (μ : DateTime → ℕ)
    (P : DateTime → Prop)
    (hP : ∀ x, P x → P (next x))
    (hμ : ∀ x, P x → μ (next x) = μ x + 1)
    (hord : ∀ x y, P x → P y → (dtLe x y ↔ μ x ≤ μ y))
    (hinj : ∀ x y, P x → P y → μ x = μ y → x = y)
    (e : DateTime) (hPe : P e) :
    ∀ fuel : ℕ, ∀ cur : DateTime, P cur → μ cur ≤ μ e → μ e - μ cur < fuel →
      genLoop next e fuel cur ≠ [] ∧
      (genLoop next e fuel cur).head? = some cur ∧
      (genLoop next e fuel cur).getLast? = some e ∧
      (∀ x ∈ genLoop next e fuel cur, P x) ∧
      List.Chain' (fun a b => b = next a) (genLoop next e fuel cur) := by
  intro fuel
  induction fuel with
  | zero =>
      intro cur _ _ hfuel
      omega
  | succ fuel ih =>
      intro cur hPc hle hfuel
      have hcurle : dtLe cur e := (hord cur e hPc hPe).mpr hle
      by_cases heq : μ cur = μ e
      · have hcure : cur = e := hinj cur e hPc hPe heq
        have hnext : ¬ dtLe (next cur) e := by
          rw [hord (next cur) e (hP cur hPc) hPe, hμ cur hPc]
          omega
        have hrest : genLoop next e fuel (next cur) = [] :=
          genLoop_nil next e (next cur) fuel hnext
        have hgl : genLoop next e (fuel + 1) cur = [cur] := by
          simp [genLoop, hcurle, hrest]
        rw [hgl]
        refine ⟨by simp, rfl, by simp [hcure], ?_, List.chain'_singleton cur⟩
        intro x hx
        simp at hx
        subst hx
        exact hPc
      · have hlt : μ cur < μ e := by omega
        have hnp := hP cur hPc
        have hnμ := hμ cur hPc
        obtain ⟨hne, hhead, hlast, hmem, hchain⟩ :=
          ih (next cur) hnp (by omega) (by omega)
        have hgl : genLoop next e (fuel + 1) cur
            = cur :: genLoop next e fuel (next cur) := by
          simp [genLoop, hcurle]
        rw [hgl]
        obtain ⟨a, t, hat⟩ := List.exists_cons_of_ne_nil hne
        refine ⟨by simp, rfl, ?_, ?_, ?_⟩
        · rw [hat, List.getLast?_cons_cons, ← hat]
          exact hlast
        · intro x hx
          rcases List.mem_cons.mp hx with hx | hx
          · subst hx
            exact hPc
          · exact hmem x hx
        · rw [List.chain'_cons']
          refine ⟨?_, hchain⟩
          intro y hy
          rw [hhead] at hy
          simp at hy
          subst hy
          rfl

/-- The alignment invariant maintained by the loop of `generate_buckets`:
buckets of the three fixed-step granularities sit on the corresponding
microsecond grid, month buckets are month starts. -/
def PIv : Interval → DateTime → Prop
  | Interval.hour => fun d => ValidDT d ∧ 3600000000 ∣ toMicro d
  | Interval.day => fun d => ValidDT d ∧ 86400000000 ∣ toMicro d
  | Interval.week => fun d => ValidDT d ∧ 604800000000 ∣ toMicro d
  | Interval.month => MonthStart

theorem floor_mu_mono (next : DateTime → DateTime) (μ : DateTime → ℕ)
    (P : DateTime → Prop)
    (hP : ∀ x, P x → P (next x))
    (hμ : ∀ x, P x → μ (next x) = μ x + 1)
    (hord : ∀ x y, P x → P y → (dtLe x y ↔ μ x ≤ μ y))
    (flf flt f t : DateTime)
    (hPf : P flf) (hPt : P flt)
    (hle_f : toMicro flf ≤ toMicro f) (hlt_t : toMicro t < toMicro (next flt))
    (hft : toMicro f ≤ toMicro t) : μ flf ≤ μ flt := by
  by_contra hcon
  push_neg at hcon
  have h1 : μ (next flt) ≤ μ flf := by
    rw [hμ flt hPt]
    omega
  have h2 : dtLe (next flt) flf := (hord _ _ (hP flt hPt) hPf).mpr h1
  unfold dtLe at h2
  omega

theorem month_lt_next_floor (d : DateTime) (hv : ValidDT d) :
    toMicro d < toMicro (add_month (floorDT d Interval.month)) := by
  have hlt := timeUS_lt d hv
  obtain ⟨hvF, hd1, hh, hm, hs, hus, hmic⟩ := floorDT_month_spec d hv
  have hms : MonthStart (floorDT d Interval.month) := ⟨hvF, hd1, hh, hm, hs, hus⟩
  obtain ⟨hms', hidx⟩ := add_month_spec _ hms
  have hmic' := monthStart_toMicro _ hms'
  obtain ⟨h1, h2, h3, h4, h5, _⟩ := hv
  have hfly : (floorDT d Interval.month).year = d.year := rfl
  have hflm : (floorDT d Interval.month).month = d.month := rfl
  by_cases hc : (floorDT d Interval.month).month = 12
  · have hcm : d.month = 12 := by
      rw [← hflm]
      exact hc
    have hy' : (add_month (floorDT d Interval.month)).year = d.year + 1 := by
      unfold add_month
      rw [if_pos hc]
      rfl
    have hm' : (add_month (floorDT d Interval.month)).month = 1 := by
      unfold add_month
      rw [if_pos hc]
    rw [hy', hm', daysBeforeMonth_one] at hmic'
    have hby := daysBeforeYear_succ d.year h1
    have hbm12 : daysBeforeMonth d.year 12 = 334 + (if isLeap d.year then 1 else 0) := by
      by_cases hL : isLeap d.year <;> simp [daysBeforeMonth, monthTable, hL]
    have hdim12 : daysInMonth d.year 12 = 31 := rfl
    rw [hcm] at h5
    rw [hmic']
    unfold toMicro toOrdinal
    rw [hcm]
    omega
  · have hcm : d.month ≠ 12 := by
      rw [← hflm]
      exact hc
    have hy' : (add_month (floorDT d Interval.month)).year = d.year := by
      unfold add_month
      rw [if_neg hc]
      rfl
    have hm' : (add_month (floorDT d Interval.month)).month = d.month + 1 := by
      unfold add_month
      rw [if_neg hc]
      rfl
    rw [hy', hm'] at hmic'
    have hbm := daysBeforeMonth_succ d.year d.month h2 (by omega)
    rw [hmic', hbm]
    unfold toMicro toOrdinal
    omega

theorem genBucketsI_spec (iv : Interval) (f t : DateTime)
    (hvf : ValidDT f) (hvt : ValidDT t) (hft : dtLe f t) :
    genBucketsI f t iv ≠ [] ∧
    (genBucketsI f t iv).head? = some (floorDT f iv) ∧
    (genBucketsI f t iv).getLast? = some (floorDT t iv) ∧
    (∀ x ∈ genBucketsI f t iv, PIv iv x) ∧
    List.Chain' (fun a b => b = nextBucket iv a) (genBucketsI f t iv) := by
  unfold dtLe at hft
  cases iv
  case hour =>
    obtain ⟨hvF, hcF⟩ := floorDT_hour_spec f hvf
    obtain ⟨hvT, hcT⟩ := floorDT_hour_spec t hvt
    have hP : ∀ x, PIv Interval.hour x → PIv Interval.hour (addHour x) := by
      intro x hx
      obtain ⟨hx1, hx2⟩ := hx
      exact ⟨(addHour_spec x hx1).1, by
        rw [(addHour_spec x hx1).2]
        exact dvd_add hx2 ⟨1, by norm_num⟩⟩
    have hμ : ∀ x, PIv Interval.hour x →
        toMicro (addHour x) / 3600000000 = toMicro x / 3600000000 + 1 := by
      intro x hx
      rw [(addHour_spec x hx.1).2]
      exact Nat.add_div_right _ (by norm_num)
    have hord : ∀ x y, PIv Interval.hour x → PIv Interval.hour y →
        (dtLe x y ↔ toMicro x / 3600000000 ≤ toMicro y / 3600000000) := by
      intro x y hx hy
      obtain ⟨a, ha⟩ := hx.2
      obtain ⟨b, hb⟩ := hy.2
      unfold dtLe
      rw [ha, hb]
      omega
    have hinj : ∀ x y, PIv Interval.hour x → PIv Interval.hour y →
        toMicro x / 3600000000 = toMicro y / 3600000000 → x = y := by
      intro x y hx hy heq
      obtain ⟨a, ha⟩ := hx.2
      obtain ⟨b, hb⟩ := hy.2
      apply toMicro_inj x y hx.1 hy.1
      rw [ha, hb] at heq ⊢
      omega
    have hPf : PIv Interval.hour (floorDT f Interval.hour) :=
      ⟨hvF, ⟨toMicro f / 3600000000, hcF⟩⟩
    have hPt : PIv Interval.hour (floorDT t Interval.hour) :=
      ⟨hvT, ⟨toMicro t / 3600000000, hcT⟩⟩
    have hμle : toMicro (floorDT f Interval.hour) / 3600000000
        ≤ toMicro (floorDT t Interval.hour) / 3600000000 := by
      apply floor_mu_mono addHour (fun d => toMicro d / 3600000000) _ hP hμ hord
        _ _ f t hPf hPt (by omega) _ hft
      rw [(addHour_spec _ hPt.1).2, hcT]
      omega
    exact genLoop_spec (nextBucket Interval.hour)
      (fun d => toMicro d / 3600000000) (PIv Interval.hour) hP hμ hord hinj
      _ hPt _ _ hPf hμle (by dsimp only; omega)
  case day =>
    obtain ⟨hvF, hcF⟩ := floorDT_day_spec f hvf
    obtain ⟨hvT, hcT⟩ := floorDT_day_spec t hvt
    have hP : ∀ x, PIv Interval.day x → PIv Interval.day (addDay x) := by
      intro x hx
      obtain ⟨hx1, hx2⟩ := hx
      exact ⟨(addDay_spec x hx1).1, by
        rw [toMicro_addDay x hx1]
        exact dvd_add hx2 ⟨1, by norm_num⟩⟩
    have hμ : ∀ x, PIv Interval.day x →
        toMicro (addDay x) / 86400000000 = toMicro x / 86400000000 + 1 := by
      intro x hx
      rw [toMicro_addDay x hx.1]
      exact Nat.add_div_right _ (by norm_num)
    have hord : ∀ x y, PIv Interval.day x → PIv Interval.day y →
        (dtLe x y ↔ toMicro x / 86400000000 ≤ toMicro y / 86400000000) := by
      intro x y hx hy
      obtain ⟨a, ha⟩ := hx.2
      obtain ⟨b, hb⟩ := hy.2
      unfold dtLe
      rw [ha, hb]
      omega
    have hinj : ∀ x y, PIv Interval.day x → PIv Interval.day y →
        toMicro x / 86400000000 = toMicro y / 86400000000 → x = y := by
      intro x y hx hy heq
      obtain ⟨a, ha⟩ := hx.2
      obtain ⟨b, hb⟩ := hy.2
      apply toMicro_inj x y hx.1 hy.1
      rw [ha, hb] at heq ⊢
      omega
    have hPf : PIv Interval.day (floorDT f Interval.day) :=
      ⟨hvF, ⟨toMicro f / 86400000000, hcF⟩⟩
    have hPt : PIv Interval.day (floorDT t Interval.day) :=
      ⟨hvT, ⟨toMicro t / 86400000000, hcT⟩⟩
    have hμle : toMicro (floorDT f Interval.day) / 86400000000
        ≤ toMicro (floorDT t Interval.day) / 86400000000 := by
      apply floor_mu_mono addDay (fun d => toMicro d / 86400000000) _ hP hμ hord
        _ _ f t hPf hPt (by omega) _ hft
      rw [toMicro_addDay _ hPt.1, hcT]
      omega
    exact genLoop_spec (nextBucket Interval.day)
      (fun d => toMicro d / 86400000000) (PIv Interval.day) hP hμ hord hinj
      _ hPt _ _ hPf hμle (by dsimp only; omega)
  case week =>
    obtain ⟨hvF, hcF⟩ := floorDT_week_spec f hvf
    obtain ⟨hvT, hcT⟩ := floorDT_week_spec t hvt
    have hstep : ∀ x, ValidDT x → toMicro (addDays 7 x) = toMicro x + 604800000000 := by
      intro x hx
      rw [toMicro_addDays 7 x hx]
    have hP : ∀ x, PIv Interval.week x → PIv Interval.week (addDays 7 x) := by
      intro x hx
      obtain ⟨hx1, hx2⟩ := hx
      exact ⟨(addDays_spec 7 x hx1).1, by
        rw [hstep x hx1]
        exact dvd_add hx2 ⟨1, by norm_num⟩⟩
    have hμ : ∀ x, PIv Interval.week x →
        toMicro (addDays 7 x) / 604800000000 = toMicro x / 604800000000 + 1 := by
      intro x hx
      rw [hstep x hx.1]
      exact Nat.add_div_right _ (by norm_num)
    have hord : ∀ x y, PIv Interval.week x → PIv Interval.week y →
        (dtLe x y ↔ toMicro x / 604800000000 ≤ toMicro y / 604800000000) := by
      intro x y hx hy
      obtain ⟨a, ha⟩ := hx.2
      obtain ⟨b, hb⟩ := hy.2
      unfold dtLe
      rw [ha, hb]
      omega
    have hinj : ∀ x y, PIv Interval.week x → PIv Interval.week y →
        toMicro x / 604800000000 = toMicro y / 604800000000 → x = y := by
      intro x y hx hy heq
      obtain ⟨a, ha⟩ := hx.2
      obtain ⟨b, hb⟩ := hy.2
      apply toMicro_inj x y hx.1 hy.1
      rw [ha, hb] at heq ⊢
      omega
    have hPf : PIv Interval.week (floorDT f Interval.week) :=
      ⟨hvF, ⟨toMicro f / 604800000000, hcF⟩⟩
    have hPt : PIv Interval.week (floorDT t Interval.week) :=
      ⟨hvT, ⟨toMicro t / 604800000000, hcT⟩⟩
    have hμle : toMicro (floorDT f Interval.week) / 604800000000
        ≤ toMicro (floorDT t Interval.week) / 604800000000 := by
      apply floor_mu_mono (addDays 7) (fun d => toMicro d / 604800000000) _ hP hμ hord
        _ _ f t hPf hPt (by omega) _ hft
      rw [hstep _ hPt.1, hcT]
      omega
    exact genLoop_spec (nextBucket Interval.week)
      (fun d => toMicro d / 604800000000) (PIv Interval.week) hP hμ hord hinj
      _ hPt _ _ hPf hμle (by dsimp only; omega)
  case month =>
    obtain ⟨hvF, fd1, fh, fm, fs, fus, hcF⟩ := floorDT_month_spec f hvf
    obtain ⟨hvT, td1, th, tm, ts, tus, hcT⟩ := floorDT_month_spec t hvt
    have hPf : PIv Interval.month (floorDT f Interval.month) :=
      ⟨hvF, fd1, fh, fm, fs, fus⟩
    have hPt : PIv Interval.month (floorDT t Interval.month) :=
      ⟨hvT, td1, th, tm, ts, tus⟩
    have hP : ∀ x, PIv Interval.month x → PIv Interval.month (add_month x) :=
      fun x hx => (add_month_spec x hx).1
    have hμ : ∀ x, PIv Interval.month x → monthIdx (add_month x) = monthIdx x + 1 :=
      fun x hx => (add_month_spec x hx).2
    have hord : ∀ x y, PIv Interval.month x → PIv Interval.month y →
        (dtLe x y ↔ monthIdx x ≤ monthIdx y) := by
      intro x y hx hy
      have h1 := monthIdx_lt_iff y x hy hx
      unfold dtLe
      constructor
      · intro hle
        by_contra hcon
        push_neg at hcon
        have := h1.mpr hcon
        omega
      · intro hle
        by_contra hcon
        push_neg at hcon
        have := h1.mp hcon
        omega
    have hinj : ∀ x y, PIv Interval.month x → PIv Interval.month y →
        monthIdx x = monthIdx y → x = y :=
      fun x y hx hy heq => monthIdx_inj x y hx hy heq
    have hfle : toMicro (floorDT f Interval.month) ≤ toMicro f := by
      obtain ⟨h1, h2, h3, h4, h5, _⟩ := hvf
      rw [hcF]
      unfold toMicro toOrdinal
      omega
    have hμle : monthIdx (floorDT f Interval.month)
        ≤ monthIdx (floorDT t Interval.month) := by
      apply floor_mu_mono add_month monthIdx _ hP hμ hord
        _ _ f t hPf hPt hfle (month_lt_next_floor t hvt) hft
    have hbound := monthIdx_le_toMicro _ hPt
    exact genLoop_spec (nextBucket Interval.month) monthIdx (PIv Interval.month)
      hP hμ hord hinj _ hPt _ _ hPf hμle (by omega)

/- Keep the loop opaque to the elaborator from here on: its body, applied to
symbolic dates, otherwise sends definitional unfolding into the arithmetic of
`toMicro`.  Concrete evaluations re-enable unfolding locally. -/
attribute [irreducible] genLoop genBucketsI

instance : IsTrans DateTime dtLt :=
  ⟨fun _ _ _ hab hbc => Nat.lt_trans hab hbc⟩

theorem chain'_imp_mem {R S : DateTime → DateTime → Prop} {P : DateTime → Prop}
    (himp : ∀ a b, P a → R a b → S a b) :
    ∀ l : List DateTime, (∀ x ∈ l, P x) → List.Chain' R l → List.Chain' S l := by
  intro l
  induction l with
  | nil =>
      intro _ _
      simp
  | cons a l ih =>
      intro hmem hch
      rw [List.chain'_cons'] at hch ⊢
      obtain ⟨hhd, htl⟩ := hch
      refine ⟨?_, ih (fun x hx => hmem x (List.mem_cons_of_mem a hx)) htl⟩
      intro y hy
      exact himp a y (hmem a (List.mem_cons_self a l)) (hhd y hy)

theorem nextBucket_lt (iv : Interval) (a : DateTime) (hP : PIv iv a) :
    dtLt a (nextBucket iv a) := by
  cases iv
  case hour =>
    show toMicro a < toMicro (addHour a)
    rw [(addHour_spec a hP.1).2]
    omega
  case day =>
    show toMicro a < toMicro (addDay a)
    rw [toMicro_addDay a hP.1]
    omega
  case week =>
    show toMicro a < toMicro (addDays 7 a)
    rw [toMicro_addDays 7 a hP.1]
    omega
  case month =>
    obtain ⟨hms', hidx⟩ := add_month_spec a hP
    exact (monthIdx_lt_iff a (add_month a) hP hms').mpr (by omega)

/-- Midnight of the first day of the month following `x` (the shape that the
specification asserts for consecutive month buckets). -/
def monthSuccessor (x : DateTime) : DateTime :=
  if x.month = 12 then ⟨x.year + 1, 1, 1, 0, 0, 0, 0⟩
  else ⟨x.year, x.month + 1, 1, 0, 0, 0, 0⟩

theorem add_month_eq_monthSuccessor (a : DateTime) (h : MonthStart a) :
    add_month a = monthSuccessor a := by
  obtain ⟨_, hd, hh, hm, hs, hus⟩ := h
  unfold add_month monthSuccessor
  by_cases hc : a.month = 12
  · rw [if_pos hc, if_pos hc]
    cases a
    simp only at hh hm hs hus
    simp [DateTime.mk.injEq, hh, hm, hs, hus]
  · rw [if_neg hc, if_neg hc]
    cases a
    simp only at hh hm hs hus
    simp [DateTime.mk.injEq, hh, hm, hs, hus]

set_option maxHeartbeats 1000000 in
/-- Claim C4: for every period with `from <= to` and granularity in
{hour, day, week, month}, `generate_buckets` returns a strictly increasing,
gapless, non-empty sequence whose first element is `floor(from)` and last
element is `floor(to)`; for hour/day/week consecutive elements differ by
exactly the fixed step (1 hour / 1 day / 7 days), for month each next element
is midnight of the first day of the month following the previous element;
and the sequence is non-empty even when `from == to`. -/
theorem claim_C4_generate_buckets (f t : DateTime) (g : String)
    (hg : g = "hour" ∨ g = "day" ∨ g = "week" ∨ g = "month")
    (hvf : ValidDT f) (hvt : ValidDT t) (hft : dtLe f t) :
    ∃ ff ft l, floor_datetime f g = Except.ok ff ∧
      floor_datetime t g = Except.ok ft ∧
      generate_buckets f t g = Except.ok l ∧
      l ≠ [] ∧ l.head? = some ff ∧ l.getLast? = some ft ∧
      l.Pairwise dtLt ∧
      (g = "hour" →
        List.Chain' (fun a b => toMicro b = toMicro a + 3600000000) l) ∧
      (g = "day" →
        List.Chain' (fun a b => toMicro b = toMicro a + 86400000000) l) ∧
      (g = "week" →
        List.Chain' (fun a b => toMicro b = toMicro a + 604800000000) l) ∧
      (g = "month" → List.Chain' (fun a b => b = monthSuccessor a) l) := by
  have main : ∀ iv : Interval,
      (genBucketsI f t iv) ≠ [] ∧
      (genBucketsI f t iv).head? = some (floorDT f iv) ∧
      (genBucketsI f t iv).getLast? = some (floorDT t iv) ∧
      (genBucketsI f t iv).Pairwise dtLt ∧
      List.Chain' (fun a b => b = nextBucket iv a) (genBucketsI f t iv) ∧
      (∀ x ∈ genBucketsI f t iv, PIv iv x) := by
    intro iv
    obtain ⟨hne, hhd, hlast, hmem, hchain⟩ := genBucketsI_spec iv f t hvf hvt hft
    refine ⟨hne, hhd, hlast, ?_, hchain, hmem⟩
    rw [← List.chain'_iff_pairwise]
    exact chain'_imp_mem
      (fun a b hPa hr => hr ▸ nextBucket_lt iv a hPa) _ hmem hchain
  rcases hg with rfl | rfl | rfl | rfl
  · obtain ⟨hne, hhd, hlast, hpw, hchain, hmem⟩ := main Interval.hour
    have e1 : floor_datetime f ("hour") = Except.ok (floorDT f Interval.hour) := by
      simp [floor_datetime, parseInterval]
    have e2 : floor_datetime t ("hour") = Except.ok (floorDT t Interval.hour) := by
      simp [floor_datetime, parseInterval]
    have e3 : generate_buckets f t ("hour") = Except.ok (genBucketsI f t Interval.hour) := by
      simp [generate_buckets, parseInterval]
    refine ⟨floorDT f Interval.hour, floorDT t Interval.hour,
      genBucketsI f t Interval.hour, e1, e2, e3, hne, hhd, hlast, hpw,
      fun _ => ?_, fun h => by simp at h, fun h => by simp at h, fun h => by simp at h⟩
    refine chain'_imp_mem (fun a b hPa hr => ?_) _ hmem hchain
    rw [hr]
    exact (addHour_spec a hPa.1).2
  · obtain ⟨hne, hhd, hlast, hpw, hchain, hmem⟩ := main Interval.day
    have e1 : floor_datetime f ("day") = Except.ok (floorDT f Interval.day) := by
      simp [floor_datetime, parseInterval]
    have e2 : floor_datetime t ("day") = Except.ok (floorDT t Interval.day) := by
      simp [floor_datetime, parseInterval]
    have e3 : generate_buckets f t ("day") = Except.ok (genBucketsI f t Interval.day) := by
      simp [generate_buckets, parseInterval]
    refine ⟨floorDT f Interval.day, floorDT t Interval.day,
      genBucketsI f t Interval.day, e1, e2, e3, hne, hhd, hlast, hpw,
      fun h => by simp at h, fun _ => ?_, fun h => by simp at h, fun h => by simp at h⟩
    refine chain'_imp_mem (fun a b hPa hr => ?_) _ hmem hchain
    rw [hr]
    exact toMicro_addDay a hPa.1
  · obtain ⟨hne, hhd, hlast, hpw, hchain, hmem⟩ := main Interval.week
    have e1 : floor_datetime f ("week") = Except.ok (floorDT f Interval.week) := by
      simp [floor_datetime, parseInterval]
    have e2 : floor_datetime t ("week") = Except.ok (floorDT t Interval.week) := by
      simp [floor_datetime, parseInterval]
    have e3 : generate_buckets f t ("week") = Except.ok (genBucketsI f t Interval.week) := by
      simp [generate_buckets, parseInterval]
    refine ⟨floorDT f Interval.week, floorDT t Interval.week,
      genBucketsI f t Interval.week, e1, e2, e3, hne, hhd, hlast, hpw,
      fun h => by simp at h, fun h => by simp at h, fun _ => ?_, fun h => by simp at h⟩
    refine chain'_imp_mem (fun a b hPa hr => ?_) _ hmem hchain
    rw [hr]
    show toMicro (addDays 7 a) = toMicro a + 604800000000
    rw [toMicro_addDays 7 a hPa.1]
  · obtain ⟨hne, hhd, hlast, hpw, hchain, hmem⟩ := main Interval.month
    have e1 : floor_datetime f ("month") = Except.ok (floorDT f Interval.month) := by
      simp [floor_datetime, parseInterval]
    have e2 : floor_datetime t ("month") = Except.ok (floorDT t Interval.month) := by
      simp [floor_datetime, parseInterval]
    have e3 : generate_buckets f t ("month") = Except.ok (genBucketsI f t Interval.month) := by
      simp [generate_buckets, parseInterval]
    refine ⟨floorDT f Interval.month, floorDT t Interval.month,
      genBucketsI f t Interval.month, e1, e2, e3, hne, hhd, hlast, hpw,
      fun h => by simp at h, fun h => by simp at h, fun h => by simp at h, fun _ => ?_⟩
    refine chain'_imp_mem (fun a b hPa hr => ?_) _ hmem hchain
    rw [hr]
    exact add_month_eq_monthSuccessor a hPa

attribute [local semireducible] genLoop genBucketsI in
/-- Witness for claim C4: the concrete two-day period 2025-12-01..2025-12-02
at day granularity. -/
theorem claim_C4_generate_buckets_witness :
    (ValidDT ⟨2025, 12, 1, 0, 0, 0, 0⟩ ∧ ValidDT ⟨2025, 12, 2, 0, 0, 0, 0⟩ ∧
      dtLe ⟨2025, 12, 1, 0, 0, 0, 0⟩ ⟨2025, 12, 2, 0, 0, 0, 0⟩) ∧
    (∃ ff ft l,
      floor_datetime ⟨2025, 12, 1, 0, 0, 0, 0⟩ ("day") = Except.ok ff ∧
      floor_datetime ⟨2025, 12, 2, 0, 0, 0, 0⟩ ("day") = Except.ok ft ∧
      generate_buckets ⟨2025, 12, 1, 0, 0, 0, 0⟩ ⟨2025, 12, 2, 0, 0, 0, 0⟩ ("day")
        = Except.ok l ∧
      l ≠ [] ∧ l.head? = some ff ∧ l.getLast? = some ft ∧
      l.Pairwise dtLt ∧
      ("day" = "hour" →
        List.Chain' (fun a b => toMicro b = toMicro a + 3600000000) l) ∧
      ("day" = "day" →
        List.Chain' (fun a b => toMicro b = toMicro a + 86400000000) l) ∧
      ("day" = "week" →
        List.Chain' (fun a b => toMicro b = toMicro a + 604800000000) l) ∧
      ("day" = "month" → List.Chain' (fun a b => b = monthSuccessor a) l)) :=
  ⟨⟨by decide, by decide, by decide⟩,
    claim_C4_generate_buckets ⟨2025, 12, 1, 0, 0, 0, 0⟩ ⟨2025, 12, 2, 0, 0, 0, 0⟩
      ("day") (Or.inr (Or.inl rfl)) (by decide) (by decide) (by decide)⟩

attribute [local semireducible] genLoop genBucketsI in
/-- Counterexample for claim C5: the claim asserts that calling
`generate_buckets` with `from > to` raises a fatal error, but on the concrete
reversed period 2025-12-02..2025-12-01 the function returns normally with an
empty list. -/
theorem claim_C5_counterexample :
    dtLt ⟨2025, 12, 1, 0, 0, 0, 0⟩ ⟨2025, 12, 2, 0, 0, 0, 0⟩ ∧
    generate_buckets ⟨2025, 12, 2, 0, 0, 0, 0⟩ ⟨2025, 12, 1, 0, 0, 0, 0⟩ ("day")
      = Except.ok [] := by
  constructor
  · decide
  · decide

/-- Claim C5 (amended): `floor_datetime` and `generate_buckets` raise
`ValueError` for a granularity outside {hour, day, week, month}, with no
silent fallback; but `generate_buckets` with `from > to` does not raise — for
every known granularity it returns normally (an `Except.ok` list, which is
empty whenever `floor(from) > floor(to)`); the `from > to` guard lives in the
`/stats` command handler, which refuses before calling. -/
theorem claim_C5_amended :
    (∀ (dt : DateTime) (g : String), g ≠ "hour" → g ≠ "day" → g ≠ "week" →
      g ≠ "month" →
      floor_datetime dt g
        = Except.error (PyErr.valueError ("Unsupported interval: " ++ g))) ∧
    (∀ (f t : DateTime) (g : String), g ≠ "hour" → g ≠ "day" → g ≠ "week" →
      g ≠ "month" →
      generate_buckets f t g
        = Except.error (PyErr.valueError ("Unsupported interval: " ++ g))) ∧
    (∀ (f t : DateTime) (g : String) (iv : Interval), parseInterval g = some iv →
      ∃ l, generate_buckets f t g = Except.ok l) := by
  have hnone : ∀ g : String, g ≠ "hour" → g ≠ "day" → g ≠ "week" → g ≠ "month" →
      parseInterval g = none := by
    intro g h1 h2 h3 h4
    unfold parseInterval
    rw [if_neg h1, if_neg h2, if_neg h3, if_neg h4]
  refine ⟨?_, ?_, ?_⟩
  · intro dt g h1 h2 h3 h4
    unfold floor_datetime
    rw [hnone g h1 h2 h3 h4]
  · intro f t g h1 h2 h3 h4
    unfold generate_buckets
    rw [hnone g h1 h2 h3 h4]
  · intro f t g iv h
    unfold generate_buckets
    rw [h]
    exact ⟨_, rfl⟩

/-- Witness for claim C5 (amended): the unknown granularity string
`"decade"` raises in both functions, and a known granularity returns
normally. -/
theorem claim_C5_amended_witness :
    floor_datetime ⟨2025, 12, 1, 0, 0, 0, 0⟩ ("decade")
      = Except.error (PyErr.valueError ("Unsupported interval: " ++ "decade")) ∧
    generate_buckets ⟨2025, 12, 1, 0, 0, 0, 0⟩ ⟨2025, 12, 2, 0, 0, 0, 0⟩ ("decade")
      = Except.error (PyErr.valueError ("Unsupported interval: " ++ "decade")) ∧
    ∃ l, generate_buckets ⟨2025, 12, 1, 0, 0, 0, 0⟩ ⟨2025, 12, 2, 0, 0, 0, 0⟩ ("day")
      = Except.ok l :=
  ⟨claim_C5_amended.1 ⟨2025, 12, 1, 0, 0, 0, 0⟩ ("decade")
      (by decide) (by decide) (by decide) (by decide),
   claim_C5_amended.2.1 ⟨2025, 12, 1, 0, 0, 0, 0⟩ ⟨2025, 12, 2, 0, 0, 0, 0⟩
      ("decade") (by decide) (by decide) (by decide) (by decide),
   claim_C5_amended.2.2 ⟨2025, 12, 1, 0, 0, 0, 0⟩ ⟨2025, 12, 2, 0, 0, 0, 0⟩
      ("day") Interval.day (by decide)⟩

/-! ### Event records and aggregation

Records carry the already-decoded field values that the aggregation loops
read.  A field that the source parses inside a `try` block (timestamps via
`datetime.fromtimestamp` / `fromisoformat`, amounts via `Decimal(str(...))`)
is an `Option`: `none` models a missing field or a parse failure, which makes
the loop `continue`. -/

/-- `FIAT = os.environ.get("FIAT", "UAH")` — default configuration. -/
def FIAT : String := "UAH"

/-- `ASSET = os.environ.get("ASSET", "USDT")` — default configuration. -/
def ASSET : String := "USDT"

/-- A Binance trade record as read by `aggregate_trades_binance`. -/
structure Trade where
  asset : String
  fiat : String
  ts : Option DateTime
  amount : Option ℚ
  totalPrice : Option ℚ
  orderStatus : Option String
deriving DecidableEq

/-- Python `str.upper()` on the ASCII range (every status string compared by
the source is ASCII). -/
def pyUpperChar (c : Char) : Char :=
  if 97 ≤ c.toNat ∧ c.toNat ≤ 122 then Char.ofNat (c.toNat - 32) else c

/-- `s.upper()`. -/
def pyUpper (s : String) : String := String.mk (s.data.map pyUpperChar)

/-- Python `str.lower()` on the ASCII range (every kind string compared by
the source is ASCII). -/
def pyLowerChar (c : Char) : Char :=
  if 65 ≤ c.toNat ∧ c.toNat ≤ 90 then Char.ofNat (c.toNat + 32) else c

/-- `s.lower()`. -/
def pyLower (s : String) : String := String.mk (s.data.map pyLowerChar)

/-- The cancellation status set of `aggregate_trades_binance`. -/
def cancelledStatuses : List String :=
  ["CANCELLED", "CANCELED", "CANCEL", "CANCELLED_BY_SYSTEM", "AUTO_CANCELLED"]

/-- The three defaultdicts built by `aggregate_trades_binance`, as total
functions (a key never touched holds the default `0`). -/
structure TradeAgg where
  soldFiat : DateTime → ℚ
  soldCrypto : DateTime → ℚ
  cancelledCounts : DateTime → ℕ

/-- `dict[k] += v` on a decimal-valued defaultdict. -/
def updAddQ (f : DateTime → ℚ) (k : DateTime) (v : ℚ) : DateTime → ℚ :=
  fun x => if x = k then add16 (f x) v else f x

/-- `dict[k] += 1` on an int-valued defaultdict. -/
def updIncN (f : DateTime → ℕ) (k : DateTime) : DateTime → ℕ :=
  fun x => if x = k then f x + 1 else f x

/-- The body of the `for t in trades` loop of `aggregate_trades_binance`. -/
def tradesStep (iv : Interval) (st : TradeAgg) (t : Trade) : TradeAgg :=
  if t.asset ≠ ASSET then st
  else if t.fiat ≠ FIAT then st
  else match t.ts with
    | none => st
    | some dts =>
      let bucket := floorDT dts iv
      let status := pyUpper (t.orderStatus.getD (""))
      if status ∈ cancelledStatuses then
        { st with cancelledCounts := updIncN st.cancelledCounts bucket }
      else if status ≠ "COMPLETED" ∧ status ≠ "FINISHED" ∧ status ≠ "SUCCESS" then
        st
      else match t.amount, t.totalPrice with
        | some a, some p =>
            { st with soldFiat := updAddQ st.soldFiat bucket p,
                      soldCrypto := updAddQ st.soldCrypto bucket a }
        | _, _ => st

/-- `aggregate_trades_binance(trades, interval)` (the granularity is already
validated by every caller; we pass it parsed). -/
def aggregate_trades_binance (trades : List Trade) (iv : Interval) : TradeAgg :=
  trades.foldl (tradesStep iv) ⟨fun _ => 0, fun _ => 0, fun _ => 0⟩

/-- A decoded row of the internal orders CSV (`csv.DictReader` output):
`created` is the `datetime.fromisoformat` result, `uah`/`usdt` the
`Decimal(row.get(...) or "0")` results. -/
structure OrderRow where
  created : Option DateTime
  uah : Option ℚ
  usdt : Option ℚ
deriving DecidableEq

/-- The three defaultdicts built by `aggregate_internal_orders_csv`. -/
structure OrderAgg where
  boughtFiat : DateTime → ℚ
  boughtCrypto : DateTime → ℚ
  orderCounts : DateTime → ℕ

/-- The body of the row loop of `aggregate_internal_orders_csv`. -/
def ordersStep (iv : Interval) (st : OrderAgg) (r : OrderRow) : OrderAgg :=
  match r.created with
  | none => st
  | some c =>
    let bucket := floorDT c iv
    match r.uah, r.usdt with
    | some u, some s =>
        ⟨updAddQ st.boughtFiat bucket u, updAddQ st.boughtCrypto bucket s,
          updIncN st.orderCounts bucket⟩
    | _, _ => st

/-- `aggregate_internal_orders_csv(csv_text, interval)`, over the decoded
rows (CSV decoding is collaborator glue). -/
def aggregate_internal_orders_csv (rows : List OrderRow) (iv : Interval) :
    OrderAgg :=
  rows.foldl (ordersStep iv) ⟨fun _ => 0, fun _ => 0, fun _ => 0⟩

/-- A transaction record as read by `aggregate_transactions`. -/
structure Transaction where
  currency : String
  created_at : Option DateTime
  amount : Option ℚ
  kind : Option String
deriving DecidableEq

/-- The body of the transaction loop of `aggregate_transactions`: the amount
is negated (`amount = -amount`, a context-rounded decimal negation) when the
lower-cased kind equals `"debit"`, then added to the bucket flow. -/
def transactionsStep (iv : Interval) (flows : DateTime → ℚ) (tr : Transaction) :
    DateTime → ℚ :=
  if tr.currency ≠ ASSET then flows
  else match tr.created_at with
  | none => flows
  | some c =>
    let bucket := floorDT c iv
    match tr.amount with
    | none => flows
    | some a =>
      let amt := if pyLower (tr.kind.getD ("")) = "debit" then round16 (-a) else a
      updAddQ flows bucket amt

/-- `aggregate_transactions(transactions, interval)`. -/
def aggregate_transactions (txs : List Transaction) (iv : Interval) :
    DateTime → ℚ :=
  txs.foldl (transactionsStep iv) (fun _ => 0)

/-! ### IntervalStats and profit metrics -/

/-- The `IntervalStats` container: a bucket list and OrderedDicts over it,
modelled as the bucket list plus total functions. -/
structure IntervalStats where
  buckets : List DateTime
  bought_fiat : DateTime → ℚ
  bought_crypto : DateTime → ℚ
  order_counts : DateTime → ℕ
  sold_fiat : DateTime → ℚ
  sold_crypto : DateTime → ℚ
  cancelled_counts : DateTime → ℕ
  tx_flows : DateTime → ℚ

/-- `IntervalStats.__init__`: every bucket starts at zero. -/
def IntervalStats.init (buckets : List DateTime) : IntervalStats :=
  ⟨buckets, fun _ => 0, fun _ => 0, fun _ => 0, fun _ => 0, fun _ => 0,
    fun _ => 0, fun _ => 0⟩

/-- `IntervalStats.populate`: for each bucket in the bucket list, copy the
aggregated value when the aggregate dict has the key (a key absent from the
defaultdict holds the default `0`, so copying the total-function value is
the same assignment). -/
def IntervalStats.populate (s : IntervalStats)
    (bought_fiat bought_crypto : DateTime → ℚ) (order_counts : DateTime → ℕ)
    (sold_fiat sold_crypto : DateTime → ℚ) (cancelled_counts : DateTime → ℕ)
    (tx_flows : DateTime → ℚ) : IntervalStats :=
  { s with
    bought_fiat := fun b => if b ∈ s.buckets then bought_fiat b else s.bought_fiat b,
    bought_crypto := fun b => if b ∈ s.buckets then bought_crypto b else s.bought_crypto b,
    order_counts := fun b => if b ∈ s.buckets then order_counts b else s.order_counts b,
    sold_fiat := fun b => if b ∈ s.buckets then sold_fiat b else s.sold_fiat b,
    sold_crypto := fun b => if b ∈ s.buckets then sold_crypto b else s.sold_crypto b,
    cancelled_counts := fun b =>
      if b ∈ s.buckets then cancelled_counts b else s.cancelled_counts b,
    tx_flows := fun b => if b ∈ s.buckets then tx_flows b else s.tx_flows b }

/-- The computation of `IntervalStats.profit_rate` on the four accumulator
values of a bucket: `None` when `bought_crypto` or `sold_crypto` is zero, and
`None` when the final division raises (zero `avg_buy_rate`, i.e. zero
`bought_fiat`), both caught by the `except` clause. -/
def profit_rate_vals (bf bc sf sc : ℚ) : Option ℚ :=
  if bc = 0 ∨ sc = 0 then none
  else
    let avg_buy_rate := div16 bf bc
    let avg_sell_rate := div16 sf sc
    if avg_buy_rate = 0 then none
    else some (div16 avg_sell_rate avg_buy_rate)

/-- The computation of `IntervalStats.profit_amount` on the four accumulator
values of a bucket:
`sc * avg_sell_rate / avg_buy_rate - sc - sc / Decimal("1000")`. -/
def profit_amount_vals (bf bc sf sc : ℚ) : Option ℚ :=
  if bc = 0 ∨ sc = 0 then none
  else
    let avg_buy_rate := div16 bf bc
    let avg_sell_rate := div16 sf sc
    if avg_buy_rate = 0 then none
    else some (sub16 (sub16 (div16 (mul16 sc avg_sell_rate) avg_buy_rate) sc)
      (div16 sc 1000))

/-- `IntervalStats.profit_rate(b)`. -/
def IntervalStats.profit_rate (s : IntervalStats) (b : DateTime) : Option ℚ :=
  profit_rate_vals (s.bought_fiat b) (s.bought_crypto b) (s.sold_fiat b)
    (s.sold_crypto b)

/-- `IntervalStats.profit_amount(b)`. -/
def IntervalStats.profit_amount (s : IntervalStats) (b : DateTime) : Option ℚ :=
  profit_amount_vals (s.bought_fiat b) (s.bought_crypto b) (s.sold_fiat b)
    (s.sold_crypto b)

/-- The series assembly that the report builder performs with the engine
components: generate the buckets for the period, run the three aggregators,
and populate an `IntervalStats` (the SeriesAssembler of the specification). -/
def assembleStats (f t : DateTime) (iv : Interval) (rows : List OrderRow)
    (trades : List Trade) (txs : List Transaction) : IntervalStats :=
  let o := aggregate_internal_orders_csv rows iv
  let tr := aggregate_trades_binance trades iv
  let tx := aggregate_transactions txs iv
  (IntervalStats.init (genBucketsI f t iv)).populate
    o.boughtFiat o.boughtCrypto o.orderCounts
    tr.soldFiat tr.soldCrypto tr.cancelledCounts tx

/-! ### Period totals over the aggregated statistics records -/

/-- One record of the `/api/statistics/` response, restricted to the four
volume fields that the profit-total loops of `stats` and
`create_statistics_report_pdf` read (`rec.get(..., 0) or 0` defaults the
missing values to zero). -/
structure StatRec where
  bought_usdt : ℚ
  sold_usdt : ℚ
  bought_uah : ℚ
  sold_uah : ℚ
deriving DecidableEq

/-- The per-record contribution to the period profit total: the per-bucket
profit amount computed from that record's own volumes, and `0` when the
computation is skipped (zero volume guard) or raises (caught by the
`except: pass`).  The `float(pa)` accumulation of the source is idealised as
exact rational addition. -/
def recProfitContribution (r : StatRec) : ℚ :=
  match profit_amount_vals r.bought_uah r.bought_usdt r.sold_uah r.sold_usdt with
  | some pa => pa
  | none => 0

/-- `total_profit_amount_sum` of the `stats` handler (and `total_profit_amount`
of `create_statistics_report_pdf`): the running sum of per-record profit
amounts. -/
def totalProfitAmount (recs : List StatRec) : ℚ :=
  recs.foldl (fun acc r => acc + recProfitContribution r) 0

/-! ### Claims C1 and C9: the per-bucket profit metrics -/

/-- Counterexample for claim C1: a populated `IntervalStats` bucket with
`bought_crypto = 1`, `sold_crypto = 1` but `bought_fiat = 0`.  The claim
asserts both metrics are present whenever `bought_crypto != 0` and
`sold_crypto != 0`; in fact both are `None`, because both computations
divide by the zero `avg_buy_rate` and the exception is caught. -/
theorem claim_C1_counterexample :
    (IntervalStats.mk [⟨2025, 12, 1, 0, 0, 0, 0⟩]
        (fun _ => 0) (fun _ => 1) (fun _ => 0) (fun _ => 1) (fun _ => 1)
        (fun _ => 0) (fun _ => 0)).bought_crypto ⟨2025, 12, 1, 0, 0, 0, 0⟩ ≠ 0 ∧
    (IntervalStats.mk [⟨2025, 12, 1, 0, 0, 0, 0⟩]
        (fun _ => 0) (fun _ => 1) (fun _ => 0) (fun _ => 1) (fun _ => 1)
        (fun _ => 0) (fun _ => 0)).sold_crypto ⟨2025, 12, 1, 0, 0, 0, 0⟩ ≠ 0 ∧
    (IntervalStats.mk [⟨2025, 12, 1, 0, 0, 0, 0⟩]
        (fun _ => 0) (fun _ => 1) (fun _ => 0) (fun _ => 1) (fun _ => 1)
        (fun _ => 0) (fun _ => 0)).profit_rate ⟨2025, 12, 1, 0, 0, 0, 0⟩ = none ∧
    (IntervalStats.mk [⟨2025, 12, 1, 0, 0, 0, 0⟩]
        (fun _ => 0) (fun _ => 1) (fun _ => 0) (fun _ => 1) (fun _ => 1)
        (fun _ => 0) (fun _ => 0)).profit_amount ⟨2025, 12, 1, 0, 0, 0, 0⟩ = none := by
  refine ⟨by decide, by decide, by decide, by decide⟩

/-- Claim C1 (amended): for every `IntervalStats` and bucket, if
`bought_crypto = 0` or `sold_crypto = 0` then both profit metrics are absent;
if `bought_crypto`, `sold_crypto` and additionally `bought_fiat` are all
nonzero, both are present and match the stated formulas exactly, computed in
the working decimal arithmetic (when `bought_fiat = 0` both metrics are
absent as well, since both computations fail on the zero average buy rate). -/
theorem claim_C1_amended (s : IntervalStats) (b : DateTime) :
    (s.bought_crypto b = 0 ∨ s.sold_crypto b = 0 →
      s.profit_rate b = none ∧ s.profit_amount b = none) ∧
    (s.bought_crypto b ≠ 0 → s.sold_crypto b ≠ 0 → s.bought_fiat b ≠ 0 →
      s.profit_rate b
        = some (div16 (div16 (s.sold_fiat b) (s.sold_crypto b))
            (div16 (s.bought_fiat b) (s.bought_crypto b))) ∧
      s.profit_amount b
        = some (sub16 (sub16 (div16 (mul16 (s.sold_crypto b)
              (div16 (s.sold_fiat b) (s.sold_crypto b)))
              (div16 (s.bought_fiat b) (s.bought_crypto b)))
            (s.sold_crypto b))
            (div16 (s.sold_crypto b) 1000))) := by
  constructor
  · intro h
    unfold IntervalStats.profit_rate IntervalStats.profit_amount
      profit_rate_vals profit_amount_vals
    rw [if_pos h, if_pos h]
    exact ⟨rfl, rfl⟩
  · intro hbc hsc hbf
    have hcond : ¬(s.bought_crypto b = 0 ∨ s.sold_crypto b = 0) := by
      push_neg
      exact ⟨hbc, hsc⟩
    have hdiv : s.bought_fiat b / s.bought_crypto b ≠ 0 :=
      div_ne_zero hbf hbc
    have hab : div16 (s.bought_fiat b) (s.bought_crypto b) ≠ 0 :=
      round16_ne_zero _ hdiv
    unfold IntervalStats.profit_rate IntervalStats.profit_amount
      profit_rate_vals profit_amount_vals
    rw [if_neg hcond, if_neg hcond]
    constructor
    · dsimp only
      rw [if_neg hab]
    · dsimp only
      rw [if_neg hab]

/-- Witness for claim C1 (amended): concrete buckets in both regimes. -/
theorem claim_C1_amended_witness :
    ((IntervalStats.mk [⟨2025, 12, 1, 0, 0, 0, 0⟩]
        (fun _ => 1000) (fun _ => 25) (fun _ => 0) (fun _ => 1050) (fun _ => 25)
        (fun _ => 0) (fun _ => 0)).profit_rate ⟨2025, 12, 1, 0, 0, 0, 0⟩
      = some (div16 (div16 1050 25) (div16 1000 25)) ∧
     (IntervalStats.mk [⟨2025, 12, 1, 0, 0, 0, 0⟩]
        (fun _ => 1000) (fun _ => 25) (fun _ => 0) (fun _ => 1050) (fun _ => 25)
        (fun _ => 0) (fun _ => 0)).profit_amount ⟨2025, 12, 1, 0, 0, 0, 0⟩
      = some (sub16 (sub16 (div16 (mul16 25 (div16 1050 25)) (div16 1000 25)) 25)
          (div16 25 1000))) ∧
    ((IntervalStats.mk [⟨2025, 12, 1, 0, 0, 0, 0⟩]
        (fun _ => 1000) (fun _ => 0) (fun _ => 0) (fun _ => 1050) (fun _ => 25)
        (fun _ => 0) (fun _ => 0)).profit_rate ⟨2025, 12, 1, 0, 0, 0, 0⟩ = none ∧
     (IntervalStats.mk [⟨2025, 12, 1, 0, 0, 0, 0⟩]
        (fun _ => 1000) (fun _ => 0) (fun _ => 0) (fun _ => 1050) (fun _ => 25)
        (fun _ => 0) (fun _ => 0)).profit_amount ⟨2025, 12, 1, 0, 0, 0, 0⟩ = none) :=
  ⟨(claim_C1_amended _ ⟨2025, 12, 1, 0, 0, 0, 0⟩).2
      (by decide) (by decide) (by decide),
   (claim_C1_amended _ ⟨2025, 12, 1, 0, 0, 0, 0⟩).1 (Or.inl (by decide))⟩

/-- Claim C9: for every `IntervalStats` and bucket, `profit_rate` is `None`
exactly when `profit_amount` is `None`; in particular, when `bought_fiat` is
zero while `bought_crypto` and `sold_crypto` are both nonzero, both metrics
are absent together, both computations failing on the division by the zero
average buy rate. -/
theorem claim_C9_profit_none_iff (s : IntervalStats) (b : DateTime) :
    (s.profit_rate b = none ↔ s.profit_amount b = none) ∧
    (s.bought_fiat b = 0 → s.bought_crypto b ≠ 0 → s.sold_crypto b ≠ 0 →
      s.profit_rate b = none ∧ s.profit_amount b = none) := by
  constructor
  · unfold IntervalStats.profit_rate IntervalStats.profit_amount
      profit_rate_vals profit_amount_vals
    by_cases h1 : s.bought_crypto b = 0 ∨ s.sold_crypto b = 0
    · rw [if_pos h1, if_pos h1]
    · rw [if_neg h1, if_neg h1]
      dsimp only
      by_cases h2 : div16 (s.bought_fiat b) (s.bought_crypto b) = 0
      · rw [if_pos h2, if_pos h2]
      · rw [if_neg h2, if_neg h2]
        simp
  · intro hbf hbc hsc
    have hcond : ¬(s.bought_crypto b = 0 ∨ s.sold_crypto b = 0) := by
      push_neg
      exact ⟨hbc, hsc⟩
    have hab : div16 (s.bought_fiat b) (s.bought_crypto b) = 0 := by
      unfold div16
      rw [hbf, zero_div, round16_zero]
    unfold IntervalStats.profit_rate IntervalStats.profit_amount
      profit_rate_vals profit_amount_vals
    rw [if_neg hcond, if_neg hcond]
    dsimp only
    rw [if_pos hab, if_pos hab]
    exact ⟨rfl, rfl⟩

/-- Witness for claim C9: a concrete bucket with zero `bought_fiat` and unit
crypto volumes. -/
theorem claim_C9_profit_none_iff_witness :
    (IntervalStats.mk [⟨2025, 12, 1, 0, 0, 0, 0⟩]
        (fun _ => 0) (fun _ => 1) (fun _ => 0) (fun _ => 1) (fun _ => 1)
        (fun _ => 0) (fun _ => 0)).profit_rate ⟨2025, 12, 1, 0, 0, 0, 0⟩ = none ∧
    (IntervalStats.mk [⟨2025, 12, 1, 0, 0, 0, 0⟩]
        (fun _ => 0) (fun _ => 1) (fun _ => 0) (fun _ => 1) (fun _ => 1)
        (fun _ => 0) (fun _ => 0)).profit_amount ⟨2025, 12, 1, 0, 0, 0, 0⟩ = none :=
  (claim_C9_profit_none_iff _ ⟨2025, 12, 1, 0, 0, 0, 0⟩).2
    (by decide) (by decide) (by decide)

/-! ### Claim C3: period profit totals -/

theorem foldl_add_eq_sum (g : StatRec → ℚ) (l : List StatRec) :
    ∀ init : ℚ, l.foldl (fun acc r => acc + g r) init = init + (l.map g).sum := by
  induction l with
  | nil =>
      intro init
      simp
  | cons r l ih =>
      intro init
      simp only [List.foldl_cons, List.map_cons, List.sum_cons]
      rw [ih]
      ring

/-- Counterexample for claim C3: two statistics records for which the summed
per-bucket profit amounts differ from the profit formula applied to the
period-summed volumes.  Record 1: bought 10 USDT for 100 UAH, sold 10 USDT
for 110 UAH; record 2: bought 10 USDT for 400 UAH, sold 10 USDT for 210 UAH.
The code totals -3.77; the formula on summed volumes gives -7.22. -/
theorem claim_C3_counterexample :
    totalProfitAmount [⟨10, 10, 100, 110⟩, ⟨10, 10, 400, 210⟩]
      ≠ (profit_amount_vals
          ((⟨10, 10, 100, 110⟩ : StatRec).bought_uah
            + (⟨10, 10, 400, 210⟩ : StatRec).bought_uah)
          ((⟨10, 10, 100, 110⟩ : StatRec).bought_usdt
            + (⟨10, 10, 400, 210⟩ : StatRec).bought_usdt)
          ((⟨10, 10, 100, 110⟩ : StatRec).sold_uah
            + (⟨10, 10, 400, 210⟩ : StatRec).sold_uah)
          ((⟨10, 10, 100, 110⟩ : StatRec).sold_usdt
            + (⟨10, 10, 400, 210⟩ : StatRec).sold_usdt)).getD 0 := by
  decide

/-- Claim C3 (amended): the period profit total is computed by summing the
per-bucket profit amounts — each obtained by applying the profit formula to
that bucket's own aggregated volumes, contributing zero when undefined — and
not by applying the profit formula once to the period-summed volumes (nor by
averaging per-bucket profit values). -/
theorem claim_C3_amended (recs : List StatRec) :
    totalProfitAmount recs = (recs.map recProfitContribution).sum ∧
    ∀ r : StatRec, recProfitContribution r
      = (profit_amount_vals r.bought_uah r.bought_usdt r.sold_uah
          r.sold_usdt).getD 0 := by
  constructor
  · unfold totalProfitAmount
    rw [foldl_add_eq_sum]
    ring
  · intro r
    unfold recProfitContribution
    cases h : profit_amount_vals r.bought_uah r.bought_usdt r.sold_uah r.sold_usdt
    · simp [h]
    · simp [h]

/-! ### Claim C7: trade status handling -/

/-- The completed status set of `aggregate_trades_binance` (written in the
source as the negated three-way conjunction
`status != "COMPLETED" and status != "FINISHED" and status != "SUCCESS"`). -/
def completedStatuses : List String := ["COMPLETED", "FINISHED", "SUCCESS"]

/-- Claim C7: each trade matching the configured asset and fiat with a
parseable timestamp is handled exclusively by its case-folded status: a
status in the cancelled set increments only `cancelled_count` of its bucket
and adds nothing to sold volumes; a status in the completed set adds
`totalPrice` to `sold_fiat` and `amount` to `sold_crypto` and never
increments `cancelled_count`; a status in neither set contributes nothing. -/
theorem claim_C7_trade_status (iv : Interval) (st : TradeAgg) (t : Trade)
    (dts : DateTime) (hasset : t.asset = ASSET) (hfiat : t.fiat = FIAT)
    (hts : t.ts = some dts) :
    (pyUpper (t.orderStatus.getD ("")) ∈ cancelledStatuses →
      tradesStep iv st t
        = { st with cancelledCounts :=
              updIncN st.cancelledCounts (floorDT dts iv) }) ∧
    (pyUpper (t.orderStatus.getD ("")) ∉ cancelledStatuses →
      pyUpper (t.orderStatus.getD ("")) ∈ completedStatuses →
      ∀ a p : ℚ, t.amount = some a → t.totalPrice = some p →
      tradesStep iv st t
        = { st with soldFiat := updAddQ st.soldFiat (floorDT dts iv) p,
                    soldCrypto := updAddQ st.soldCrypto (floorDT dts iv) a }) ∧
    (pyUpper (t.orderStatus.getD ("")) ∉ cancelledStatuses →
      pyUpper (t.orderStatus.getD ("")) ∉ completedStatuses →
      tradesStep iv st t = st) := by
  have h1 : ¬(t.asset ≠ ASSET) := by
    simp [hasset]
  have h2 : ¬(t.fiat ≠ FIAT) := by
    simp [hfiat]
  unfold tradesStep
  rw [if_neg h1, if_neg h2, hts]
  dsimp only
  refine ⟨?_, ?_, ?_⟩
  · intro hc
    rw [if_pos hc]
  · intro hnc hcompl a p ha hp
    rw [if_neg hnc]
    have hcond : ¬(pyUpper (t.orderStatus.getD ("")) ≠ "COMPLETED" ∧
        pyUpper (t.orderStatus.getD ("")) ≠ "FINISHED" ∧
        pyUpper (t.orderStatus.getD ("")) ≠ "SUCCESS") := by
      simp only [completedStatuses, List.mem_cons, List.not_mem_nil,
        or_false] at hcompl
      push_neg
      intro hA hB
      rcases hcompl with h | h | h
      · exact absurd h hA
      · exact absurd h hB
      · exact h
    rw [if_neg hcond, ha, hp]
  · intro hnc hncompl
    rw [if_neg hnc]
    have hcond : pyUpper (t.orderStatus.getD ("")) ≠ "COMPLETED" ∧
        pyUpper (t.orderStatus.getD ("")) ≠ "FINISHED" ∧
        pyUpper (t.orderStatus.getD ("")) ≠ "SUCCESS" := by
      simp only [completedStatuses, List.mem_cons, List.not_mem_nil,
        or_false] at hncompl
      push_neg at hncompl
      exact hncompl
    rw [if_pos hcond]

/-- Witness for claim C7: three concrete trades, one per status regime,
entering an empty aggregation state. -/
theorem claim_C7_trade_status_witness :
    tradesStep Interval.day ⟨fun _ => 0, fun _ => 0, fun _ => 0⟩
        ⟨"USDT", "UAH", some ⟨2025, 12, 1, 12, 0, 0, 0⟩, some 25, some 1050,
          some ("CANCELLED")⟩
      = { (⟨fun _ => 0, fun _ => 0, fun _ => 0⟩ : TradeAgg) with
          cancelledCounts := updIncN (fun _ => 0)
            (floorDT ⟨2025, 12, 1, 12, 0, 0, 0⟩ Interval.day) } ∧
    tradesStep Interval.day ⟨fun _ => 0, fun _ => 0, fun _ => 0⟩
        ⟨"USDT", "UAH", some ⟨2025, 12, 1, 12, 0, 0, 0⟩, some 25, some 1050,
          some ("COMPLETED")⟩
      = { (⟨fun _ => 0, fun _ => 0, fun _ => 0⟩ : TradeAgg) with
          soldFiat := updAddQ (fun _ => 0)
            (floorDT ⟨2025, 12, 1, 12, 0, 0, 0⟩ Interval.day) 1050,
          soldCrypto := updAddQ (fun _ => 0)
            (floorDT ⟨2025, 12, 1, 12, 0, 0, 0⟩ Interval.day) 25 } ∧
    tradesStep Interval.day ⟨fun _ => 0, fun _ => 0, fun _ => 0⟩
        ⟨"USDT", "UAH", some ⟨2025, 12, 1, 12, 0, 0, 0⟩, some 25, some 1050,
          some ("PENDING")⟩
      = ⟨fun _ => 0, fun _ => 0, fun _ => 0⟩ :=
  ⟨(claim_C7_trade_status Interval.day _ _ ⟨2025, 12, 1, 12, 0, 0, 0⟩
      rfl rfl rfl).1 (by decide),
   (claim_C7_trade_status Interval.day _ _ ⟨2025, 12, 1, 12, 0, 0, 0⟩
      rfl rfl rfl).2.1 (by decide) (by decide) 25 1050 rfl rfl,
   (claim_C7_trade_status Interval.day _ _ ⟨2025, 12, 1, 12, 0, 0, 0⟩
      rfl rfl rfl).2.2 (by decide) (by decide)⟩

/-! ### Claim C10: transaction kind handling -/

/-- Claim C10: in `aggregate_transactions`, every transaction whose currency
equals the configured asset and whose timestamp and amount both parse is
added to its bucket's net flow with positive sign unless its lower-cased
kind equals exactly `"debit"`, in which case the (context-negated) amount is
subtracted; a missing, empty, or unrecognized kind is treated as a credit
rather than rejected. -/
theorem claim_C10_transactions (iv : Interval) (flows : DateTime → ℚ)
    (tr : Transaction) (dts : DateTime) (a : ℚ)
    (hcur : tr.currency = ASSET) (hts : tr.created_at = some dts)
    (ha : tr.amount = some a) :
    transactionsStep iv flows tr
      = updAddQ flows (floorDT dts iv)
          (if pyLower (tr.kind.getD ("")) = "debit" then round16 (-a) else a) ∧
    (pyLower (tr.kind.getD ("")) ≠ "debit" →
      transactionsStep iv flows tr = updAddQ flows (floorDT dts iv) a) ∧
    (tr.kind = none →
      transactionsStep iv flows tr = updAddQ flows (floorDT dts iv) a) := by
  have h1 : ¬(tr.currency ≠ ASSET) := by
    simp [hcur]
  have hmain : transactionsStep iv flows tr
      = updAddQ flows (floorDT dts iv)
          (if pyLower (tr.kind.getD ("")) = "debit" then round16 (-a) else a) := by
    unfold transactionsStep
    rw [if_neg h1, hts]
    dsimp only
    rw [ha]
  refine ⟨hmain, ?_, ?_⟩
  · intro hk
    rw [hmain, if_neg hk]
  · intro hk
    rw [hmain]
    have : pyLower (tr.kind.getD ("")) ≠ "debit" := by
      rw [hk]
      decide
    rw [if_neg this]

/-- Witness for claim C10: concrete debit, credit, and kind-less
transactions entering an empty flow state. -/
theorem claim_C10_transactions_witness :
    transactionsStep Interval.day (fun _ => 0)
        ⟨"USDT", some ⟨2025, 12, 1, 12, 0, 0, 0⟩, some 7, some ("debit")⟩
      = updAddQ (fun _ => 0) (floorDT ⟨2025, 12, 1, 12, 0, 0, 0⟩ Interval.day)
          (round16 (-7)) ∧
    transactionsStep Interval.day (fun _ => 0)
        ⟨"USDT", some ⟨2025, 12, 1, 12, 0, 0, 0⟩, some 7, some ("credit")⟩
      = updAddQ (fun _ => 0) (floorDT ⟨2025, 12, 1, 12, 0, 0, 0⟩ Interval.day) 7 ∧
    transactionsStep Interval.day (fun _ => 0)
        ⟨"USDT", some ⟨2025, 12, 1, 12, 0, 0, 0⟩, some 7, none⟩
      = updAddQ (fun _ => 0) (floorDT ⟨2025, 12, 1, 12, 0, 0, 0⟩ Interval.day) 7 := by
  refine ⟨?_, ?_, ?_⟩
  · have h := (claim_C10_transactions Interval.day (fun _ => 0)
      ⟨"USDT", some ⟨2025, 12, 1, 12, 0, 0, 0⟩, some 7, some ("debit")⟩
      ⟨2025, 12, 1, 12, 0, 0, 0⟩ 7 rfl rfl rfl).1
    rw [h]
    congr 1
  · exact (claim_C10_transactions Interval.day (fun _ => 0)
      ⟨"USDT", some ⟨2025, 12, 1, 12, 0, 0, 0⟩, some 7, some ("credit")⟩
      ⟨2025, 12, 1, 12, 0, 0, 0⟩ 7 rfl rfl rfl).2.1 (by decide)
  · exact (claim_C10_transactions Interval.day (fun _ => 0)
      ⟨"USDT", some ⟨2025, 12, 1, 12, 0, 0, 0⟩, some 7, none⟩
      ⟨2025, 12, 1, 12, 0, 0, 0⟩ 7 rfl rfl rfl).2.2 rfl

/-! ### Claim C2: the end-to-end example -/

/-- The order of the end-to-end example: 2025-12-01T10:00, 1000 UAH, 25 USDT. -/
def exampleOrderRow : OrderRow :=
  ⟨some ⟨2025, 12, 1, 10, 0, 0, 0⟩, some 1000, some 25⟩

/-- The trade of the end-to-end example: 2025-12-01T12:00, USDT/UAH,
amount 25, totalPrice 1050, status COMPLETED. -/
def exampleTrade : Trade :=
  ⟨"USDT", "UAH", some ⟨2025, 12, 1, 12, 0, 0, 0⟩, some 25, some 1050,
    some ("COMPLETED")⟩

/-- The assembled series of the end-to-end example over the period
2025-12-01..2025-12-02 at day granularity. -/
def exampleStats : IntervalStats :=
  assembleStats ⟨2025, 12, 1, 0, 0, 0, 0⟩ ⟨2025, 12, 2, 0, 0, 0, 0⟩ Interval.day
    [exampleOrderRow] [exampleTrade] []

attribute [local semireducible] genLoop genBucketsI in
/-- Counterexample for claim C2: the claim (following the specification)
puts `profit_amount = 25*42/40 - 25 - 0.025 = 0.975` for bucket 2025-12-01;
the code computes `25*42/40 - 25 - 0.025 = 1.225` (the specification's
arithmetic is wrong: `25·42/40 = 26.25`). -/
theorem claim_C2_counterexample :
    exampleStats.profit_amount ⟨2025, 12, 1, 0, 0, 0, 0⟩ ≠ some (39/40) ∧
    exampleStats.profit_amount ⟨2025, 12, 1, 0, 0, 0, 0⟩ = some (49/40) := by
  constructor
  · decide
  · decide

attribute [local semireducible] genLoop genBucketsI in
/-- Claim C2 (amended): for the period 2025-12-01..2025-12-02 at day
granularity, with the single example order and single example trade, the
assembled series has exactly the two buckets 2025-12-01 and 2025-12-02;
bucket 2025-12-01 has `bought_fiat = 1000`, `bought_crypto = 25`,
`sold_fiat = 1050`, `sold_crypto = 25`, `avg_buy_rate = 40`,
`avg_sell_rate = 42`, `profit_rate = 1.05` and
`profit_amount = 25*42/40 - 25 - 0.025 = 1.225`; bucket 2025-12-02 is
present with all accumulator fields zero and both profit metrics absent. -/
theorem claim_C2_amended :
    exampleStats.buckets
      = [⟨2025, 12, 1, 0, 0, 0, 0⟩, ⟨2025, 12, 2, 0, 0, 0, 0⟩] ∧
    exampleStats.bought_fiat ⟨2025, 12, 1, 0, 0, 0, 0⟩ = 1000 ∧
    exampleStats.bought_crypto ⟨2025, 12, 1, 0, 0, 0, 0⟩ = 25 ∧
    exampleStats.sold_fiat ⟨2025, 12, 1, 0, 0, 0, 0⟩ = 1050 ∧
    exampleStats.sold_crypto ⟨2025, 12, 1, 0, 0, 0, 0⟩ = 25 ∧
    exampleStats.order_counts ⟨2025, 12, 1, 0, 0, 0, 0⟩ = 1 ∧
    exampleStats.cancelled_counts ⟨2025, 12, 1, 0, 0, 0, 0⟩ = 0 ∧
    div16 (exampleStats.bought_fiat ⟨2025, 12, 1, 0, 0, 0, 0⟩)
        (exampleStats.bought_crypto ⟨2025, 12, 1, 0, 0, 0, 0⟩) = 40 ∧
    div16 (exampleStats.sold_fiat ⟨2025, 12, 1, 0, 0, 0, 0⟩)
        (exampleStats.sold_crypto ⟨2025, 12, 1, 0, 0, 0, 0⟩) = 42 ∧
    exampleStats.profit_rate ⟨2025, 12, 1, 0, 0, 0, 0⟩ = some (21/20) ∧
    exampleStats.profit_amount ⟨2025, 12, 1, 0, 0, 0, 0⟩ = some (49/40) ∧
    (49/40 : ℚ) = 25 * 42 / 40 - 25 - 25/1000 ∧
    exampleStats.bought_fiat ⟨2025, 12, 2, 0, 0, 0, 0⟩ = 0 ∧
    exampleStats.bought_crypto ⟨2025, 12, 2, 0, 0, 0, 0⟩ = 0 ∧
    exampleStats.sold_fiat ⟨2025, 12, 2, 0, 0, 0, 0⟩ = 0 ∧
    exampleStats.sold_crypto ⟨2025, 12, 2, 0, 0, 0, 0⟩ = 0 ∧
    exampleStats.order_counts ⟨2025, 12, 2, 0, 0, 0, 0⟩ = 0 ∧
    exampleStats.cancelled_counts ⟨2025, 12, 2, 0, 0, 0, 0⟩ = 0 ∧
    exampleStats.tx_flows ⟨2025, 12, 2, 0, 0, 0, 0⟩ = 0 ∧
    exampleStats.profit_rate ⟨2025, 12, 2, 0, 0, 0, 0⟩ = none ∧
    exampleStats.profit_amount ⟨2025, 12, 2, 0, 0, 0, 0⟩ = none := by
  refine ⟨by decide, by decide, by decide, by decide, by decide, by decide,
    by decide, by decide, by decide, by decide, by decide, by norm_num,
    by decide, by decide, by decide, by decide, by decide, by decide,
    by decide, by decide, by decide⟩

/-! ### Per-event contributions of the aggregation loops

Each accumulator of an aggregation loop receives, per event, at most one
contribution `(bucket, value)` (or a bucket for counters).  The extraction
functions below mirror the loop guards literally, and the lemmas show that
the folds are equivalent to applying the extracted contribution streams. -/

/-- The `sold_fiat` contribution of one trade. -/
def soldFiatContrib (iv : Interval) (t : Trade) : Option (DateTime × ℚ) :=
  if t.asset ≠ ASSET then none
  else if t.fiat ≠ FIAT then none
  else match t.ts with
    | none => none
    | some dts =>
      let status := pyUpper (t.orderStatus.getD (""))
      if status ∈ cancelledStatuses then none
      else if status ≠ "COMPLETED" ∧ status ≠ "FINISHED" ∧ status ≠ "SUCCESS" then
        none
      else match t.amount, t.totalPrice with
        | some _, some p => some (floorDT dts iv, p)
        | _, _ => none

/-- The `sold_crypto` contribution of one trade. -/
def soldCryptoContrib (iv : Interval) (t : Trade) : Option (DateTime × ℚ) :=
  if t.asset ≠ ASSET then none
  else if t.fiat ≠ FIAT then none
  else match t.ts with
    | none => none
    | some dts =>
      let status := pyUpper (t.orderStatus.getD (""))
      if status ∈ cancelledStatuses then none
      else if status ≠ "COMPLETED" ∧ status ≠ "FINISHED" ∧ status ≠ "SUCCESS" then
        none
      else match t.amount, t.totalPrice with
        | some a, some _ => some (floorDT dts iv, a)
        | _, _ => none

/-- The `cancelled_count` contribution of one trade. -/
def cancelledContrib (iv : Interval) (t : Trade) : Option DateTime :=
  if t.asset ≠ ASSET then none
  else if t.fiat ≠ FIAT then none
  else match t.ts with
    | none => none
    | some dts =>
      if pyUpper (t.orderStatus.getD ("")) ∈ cancelledStatuses then
        some (floorDT dts iv)
      else none

/-- The `bought_fiat` contribution of one order row. -/
def boughtFiatContrib (iv : Interval) (r : OrderRow) : Option (DateTime × ℚ) :=
  match r.created with
  | none => none
  | some c =>
    match r.uah, r.usdt with
    | some u, some _ => some (floorDT c iv, u)
    | _, _ => none

/-- The `bought_crypto` contribution of one order row. -/
def boughtCryptoContrib (iv : Interval) (r : OrderRow) : Option (DateTime × ℚ) :=
  match r.created with
  | none => none
  | some c =>
    match r.uah, r.usdt with
    | some _, some s => some (floorDT c iv, s)
    | _, _ => none

/-- The `order_counts` contribution of one order row. -/
def orderCountContrib (iv : Interval) (r : OrderRow) : Option DateTime :=
  match r.created with
  | none => none
  | some c =>
    match r.uah, r.usdt with
    | some _, some _ => some (floorDT c iv)
    | _, _ => none

/-- The net-flow contribution of one transaction (signed by kind). -/
def txContrib (iv : Interval) (tr : Transaction) : Option (DateTime × ℚ) :=
  if tr.currency ≠ ASSET then none
  else match tr.created_at with
  | none => none
  | some c =>
    match tr.amount with
    | none => none
    | some a =>
      some (floorDT c iv,
        if pyLower (tr.kind.getD ("")) = "debit" then round16 (-a) else a)

/-- Replay a stream of decimal contributions. -/
def applyQ (f : DateTime → ℚ) (cs : List (DateTime × ℚ)) : DateTime → ℚ :=
  cs.foldl (fun g p => updAddQ g p.1 p.2) f

/-- Replay a stream of counter contributions. -/
def applyN (f : DateTime → ℕ) (ks : List DateTime) : DateTime → ℕ :=
  ks.foldl updIncN f

theorem applyQ_apply (cs : List (DateTime × ℚ)) :
    ∀ (f : DateTime → ℚ) (k : DateTime),
      applyQ f cs k
        = List.foldl add16 (f k)
            ((cs.filter (fun p => decide (p.1 = k))).map (fun p => p.2)) := by
  induction cs with
  | nil =>
      intro f k
      simp [applyQ]
  | cons p cs ih =>
      intro f k
      unfold applyQ at *
      rw [List.foldl_cons, ih]
      by_cases h : p.1 = k
      · rw [List.filter_cons_of_pos (by simp [h])]
        rw [List.map_cons, List.foldl_cons]
        congr 1
        unfold updAddQ
        rw [if_pos h.symm]
      · rw [List.filter_cons_of_neg (by simp [h])]
        congr 1
        unfold updAddQ
        rw [if_neg (fun hc => h hc.symm)]

theorem applyN_apply (ks : List DateTime) :
    ∀ (f : DateTime → ℕ) (k : DateTime),
      applyN f ks k = f k + (ks.filter (fun x => decide (x = k))).length := by
  induction ks with
  | nil =>
      intro f k
      simp [applyN]
  | cons x ks ih =>
      intro f k
      unfold applyN at *
      rw [List.foldl_cons, ih]
      by_cases h : x = k
      · rw [List.filter_cons_of_pos (by simp [h])]
        unfold updIncN
        rw [if_pos h.symm]
        simp only [List.length_cons]
        omega
      · rw [List.filter_cons_of_neg (by simp [h])]
        unfold updIncN
        rw [if_neg (fun hc => h hc.symm)]

theorem tradesStep_soldFiat (iv : Interval) (st : TradeAgg) (t : Trade) :
    (tradesStep iv st t).soldFiat =
      match soldFiatContrib iv t with
      | some p => updAddQ st.soldFiat p.1 p.2
      | none => st.soldFiat := by
  unfold tradesStep soldFiatContrib
  by_cases h1 : t.asset ≠ ASSET
  · simp only [if_pos h1]
  · simp only [if_neg h1]
    by_cases h2 : t.fiat ≠ FIAT
    · simp only [if_pos h2]
    · simp only [if_neg h2]
      cases hts : t.ts with
      | none => rfl
      | some dts =>
        simp only
        by_cases hc : pyUpper (t.orderStatus.getD ("")) ∈ cancelledStatuses
        · simp only [if_pos hc]
        · simp only [if_neg hc]
          by_cases hs : pyUpper (t.orderStatus.getD ("")) ≠ "COMPLETED" ∧
              pyUpper (t.orderStatus.getD ("")) ≠ "FINISHED" ∧
              pyUpper (t.orderStatus.getD ("")) ≠ "SUCCESS"
          · simp only [if_pos hs]
          · simp only [if_neg hs]
            cases t.amount <;> cases t.totalPrice <;> rfl

theorem tradesStep_soldCrypto (iv : Interval) (st : TradeAgg) (t : Trade) :
    (tradesStep iv st t).soldCrypto =
      match soldCryptoContrib iv t with
      | some p => updAddQ st.soldCrypto p.1 p.2
      | none => st.soldCrypto := by
  unfold tradesStep soldCryptoContrib
  by_cases h1 : t.asset ≠ ASSET
  · simp only [if_pos h1]
  · simp only [if_neg h1]
    by_cases h2 : t.fiat ≠ FIAT
    · simp only [if_pos h2]
    · simp only [if_neg h2]
      cases hts : t.ts with
      | none => rfl
      | some dts =>
        simp only
        by_cases hc : pyUpper (t.orderStatus.getD ("")) ∈ cancelledStatuses
        · simp only [if_pos hc]
        · simp only [if_neg hc]
          by_cases hs : pyUpper (t.orderStatus.getD ("")) ≠ "COMPLETED" ∧
              pyUpper (t.orderStatus.getD ("")) ≠ "FINISHED" ∧
              pyUpper (t.orderStatus.getD ("")) ≠ "SUCCESS"
          · simp only [if_pos hs]
          · simp only [if_neg hs]
            cases t.amount <;> cases t.totalPrice <;> rfl

theorem tradesStep_cancelled (iv : Interval) (st : TradeAgg) (t : Trade) :
    (tradesStep iv st t).cancelledCounts =
      match cancelledContrib iv t with
      | some k => updIncN st.cancelledCounts k
      | none => st.cancelledCounts := by
  unfold tradesStep cancelledContrib
  by_cases h1 : t.asset ≠ ASSET
  · simp only [if_pos h1]
  · simp only [if_neg h1]
    by_cases h2 : t.fiat ≠ FIAT
    · simp only [if_pos h2]
    · simp only [if_neg h2]
      cases hts : t.ts with
      | none => rfl
      | some dts =>
        simp only
        by_cases hc : pyUpper (t.orderStatus.getD ("")) ∈ cancelledStatuses
        · simp only [if_pos hc]
        · simp only [if_neg hc]
          by_cases hs : pyUpper (t.orderStatus.getD ("")) ≠ "COMPLETED" ∧
              pyUpper (t.orderStatus.getD ("")) ≠ "FINISHED" ∧
              pyUpper (t.orderStatus.getD ("")) ≠ "SUCCESS"
          · simp only [if_pos hs]
          · simp only [if_neg hs]
            cases t.amount <;> cases t.totalPrice <;> rfl

theorem ordersStep_boughtFiat (iv : Interval) (st : OrderAgg) (r : OrderRow) :
    (ordersStep iv st r).boughtFiat =
      match boughtFiatContrib iv r with
      | some p => updAddQ st.boughtFiat p.1 p.2
      | none => st.boughtFiat := by
  unfold ordersStep boughtFiatContrib
  cases r.created with
  | none => rfl
  | some c =>
      simp only
      cases r.uah <;> cases r.usdt <;> rfl

theorem ordersStep_boughtCrypto (iv : Interval) (st : OrderAgg) (r : OrderRow) :
    (ordersStep iv st r).boughtCrypto =
      match boughtCryptoContrib iv r with
      | some p => updAddQ st.boughtCrypto p.1 p.2
      | none => st.boughtCrypto := by
  unfold ordersStep boughtCryptoContrib
  cases r.created with
  | none => rfl
  | some c =>
      simp only
      cases r.uah <;> cases r.usdt <;> rfl

theorem ordersStep_orderCounts (iv : Interval) (st : OrderAgg) (r : OrderRow) :
    (ordersStep iv st r).orderCounts =
      match orderCountContrib iv r with
      | some k => updIncN st.orderCounts k
      | none => st.orderCounts := by
  unfold ordersStep orderCountContrib
  cases r.created with
  | none => rfl
  | some c =>
      simp only
      cases r.uah <;> cases r.usdt <;> rfl

theorem transactionsStep_eq (iv : Interval) (flows : DateTime → ℚ)
    (tr : Transaction) :
    transactionsStep iv flows tr =
      match txContrib iv tr with
      | some p => updAddQ flows p.1 p.2
      | none => flows := by
  unfold transactionsStep txContrib
  by_cases h1 : tr.currency ≠ ASSET
  · simp only [if_pos h1]
  · simp only [if_neg h1]
    cases tr.created_at with
    | none => rfl
    | some c =>
        simp only
        cases tr.amount <;> rfl

theorem aggregate_trades_soldFiat (iv : Interval) (l : List Trade) :
    ∀ st : TradeAgg,
      (l.foldl (tradesStep iv) st).soldFiat
        = applyQ st.soldFiat (l.filterMap (soldFiatContrib iv)) := by
  induction l with
  | nil => intro st; rfl
  | cons t l ih =>
      intro st
      rw [List.foldl_cons, ih, List.filterMap_cons]
      cases hc : soldFiatContrib iv t with
      | none => simp only [tradesStep_soldFiat, hc]
      | some p => simp only [tradesStep_soldFiat, hc, applyQ, List.foldl_cons]

theorem aggregate_trades_soldCrypto (iv : Interval) (l : List Trade) :
    ∀ st : TradeAgg,
      (l.foldl (tradesStep iv) st).soldCrypto
        = applyQ st.soldCrypto (l.filterMap (soldCryptoContrib iv)) := by
  induction l with
  | nil => intro st; rfl
  | cons t l ih =>
      intro st
      rw [List.foldl_cons, ih, List.filterMap_cons]
      cases hc : soldCryptoContrib iv t with
      | none => simp only [tradesStep_soldCrypto, hc]
      | some p => simp only [tradesStep_soldCrypto, hc, applyQ, List.foldl_cons]

theorem aggregate_trades_cancelled (iv : Interval) (l : List Trade) :
    ∀ st : TradeAgg,
      (l.foldl (tradesStep iv) st).cancelledCounts
        = applyN st.cancelledCounts (l.filterMap (cancelledContrib iv)) := by
  induction l with
  | nil => intro st; rfl
  | cons t l ih =>
      intro st
      rw [List.foldl_cons, ih, List.filterMap_cons]
      cases hc : cancelledContrib iv t with
      | none => simp only [tradesStep_cancelled, hc]
      | some k => simp only [tradesStep_cancelled, hc, applyN, List.foldl_cons]

theorem aggregate_orders_boughtFiat (iv : Interval) (l : List OrderRow) :
    ∀ st : OrderAgg,
      (l.foldl (ordersStep iv) st).boughtFiat
        = applyQ st.boughtFiat (l.filterMap (boughtFiatContrib iv)) := by
  induction l with
  | nil => intro st; rfl
  | cons r l ih =>
      intro st
      rw [List.foldl_cons, ih, List.filterMap_cons]
      cases hc : boughtFiatContrib iv r with
      | none => simp only [ordersStep_boughtFiat, hc]
      | some p => simp only [ordersStep_boughtFiat, hc, applyQ, List.foldl_cons]

theorem aggregate_orders_boughtCrypto (iv : Interval) (l : List OrderRow) :
    ∀ st : OrderAgg,
      (l.foldl (ordersStep iv) st).boughtCrypto
        = applyQ st.boughtCrypto (l.filterMap (boughtCryptoContrib iv)) := by
  induction l with
  | nil => intro st; rfl
  | cons r l ih =>
      intro st
      rw [List.foldl_cons, ih, List.filterMap_cons]
      cases hc : boughtCryptoContrib iv r with
      | none => simp only [ordersStep_boughtCrypto, hc]
      | some p => simp only [ordersStep_boughtCrypto, hc, applyQ, List.foldl_cons]

theorem aggregate_orders_orderCounts (iv : Interval) (l : List OrderRow) :
    ∀ st : OrderAgg,
      (l.foldl (ordersStep iv) st).orderCounts
        = applyN st.orderCounts (l.filterMap (orderCountContrib iv)) := by
  induction l with
  | nil => intro st; rfl
  | cons r l ih =>
      intro st
      rw [List.foldl_cons, ih, List.filterMap_cons]
      cases hc : orderCountContrib iv r with
      | none => simp only [ordersStep_orderCounts, hc]
      | some k => simp only [ordersStep_orderCounts, hc, applyN, List.foldl_cons]

theorem aggregate_transactions_eq (iv : Interval) (l : List Transaction) :
    ∀ flows : DateTime → ℚ,
      l.foldl (transactionsStep iv) flows
        = applyQ flows (l.filterMap (txContrib iv)) := by
  induction l with
  | nil => intro flows; rfl
  | cons tr l ih =>
      intro flows
      rw [List.foldl_cons, ih, List.filterMap_cons]
      cases hc : txContrib iv tr with
      | none => simp only [transactionsStep_eq, hc]
      | some p => simp only [transactionsStep_eq, hc, applyQ, List.foldl_cons]

/-! ### Regrouping sums over a duplicate-free bucket list -/

theorem sum_map_add_distrib {α M : Type} [AddCommMonoid M] (l : List α)
    (f g : α → M) :
    (l.map (fun x => f x + g x)).sum = (l.map f).sum + (l.map g).sum := by
  induction l with
  | nil => simp
  | cons x l ih =>
      simp only [List.map_cons, List.sum_cons, ih]
      exact add_add_add_comm _ _ _ _

theorem sum_map_indicator {M : Type} [AddCommMonoid M] (bs : List DateTime)
    (hnd : bs.Nodup) (k : DateTime) (v : M) :
    (bs.map (fun b => if k = b then v else 0)).sum = if k ∈ bs then v else 0 := by
  induction bs with
  | nil => simp
  | cons b bs ih =>
      rw [List.nodup_cons] at hnd
      simp only [List.map_cons, List.sum_cons]
      by_cases h : k = b
      · rw [if_pos h, ih hnd.2, if_neg (h ▸ hnd.1), add_zero,
          if_pos (by simp [h])]
      · rw [if_neg h, zero_add, ih hnd.2]
        by_cases hm : k ∈ bs
        · rw [if_pos hm, if_pos (List.mem_cons_of_mem _ hm)]
        · rw [if_neg hm, if_neg (by simp [h, hm])]

theorem sum_filter_buckets (cs : List (DateTime × ℚ)) :
    ∀ bs : List DateTime, bs.Nodup →
      (bs.map (fun b =>
          ((cs.filter (fun p => decide (p.1 = b))).map (fun p => p.2)).sum)).sum
        = ((cs.filter (fun p => decide (p.1 ∈ bs))).map (fun p => p.2)).sum := by
  induction cs with
  | nil =>
      intro bs _
      simp
  | cons p cs ih =>
      intro bs hnd
      have step : (fun b =>
            (((p :: cs).filter (fun q => decide (q.1 = b))).map
              (fun q => q.2)).sum)
          = fun b => (if p.1 = b then p.2 else 0)
              + ((cs.filter (fun q => decide (q.1 = b))).map (fun q => q.2)).sum := by
        funext b
        by_cases h : p.1 = b
        · rw [List.filter_cons_of_pos (by simp [h]), List.map_cons,
            List.sum_cons, if_pos h]
        · rw [List.filter_cons_of_neg (by simp [h]), if_neg h, zero_add]
      rw [step, sum_map_add_distrib, sum_map_indicator bs hnd, ih bs hnd]
      by_cases hm : p.1 ∈ bs
      · rw [if_pos hm, List.filter_cons_of_pos (by simp [hm]), List.map_cons,
          List.sum_cons]
      · rw [if_neg hm, List.filter_cons_of_neg (by simp [hm]), zero_add]

theorem length_filter_buckets (ks : List DateTime) :
    ∀ bs : List DateTime, bs.Nodup →
      (bs.map (fun b => (ks.filter (fun x => decide (x = b))).length)).sum
        = (ks.filter (fun x => decide (x ∈ bs))).length := by
  induction ks with
  | nil =>
      intro bs _
      simp
  | cons x ks ih =>
      intro bs hnd
      have step : (fun b => ((x :: ks).filter (fun y => decide (y = b))).length)
          = fun b => (if x = b then 1 else 0)
              + (ks.filter (fun y => decide (y = b))).length := by
        funext b
        by_cases h : x = b
        · rw [List.filter_cons_of_pos (by simp [h]), List.length_cons, if_pos h]
          omega
        · rw [List.filter_cons_of_neg (by simp [h]), if_neg h, Nat.zero_add]
      rw [step, sum_map_add_distrib, sum_map_indicator bs hnd, ih bs hnd]
      by_cases hm : x ∈ bs
      · rw [if_pos hm, List.filter_cons_of_pos (by simp [hm]), List.length_cons]
        omega
      · rw [if_neg hm, List.filter_cons_of_neg (by simp [hm]), Nat.zero_add]

/-! ### Exact folding of bounded on-grid decimals -/

theorem exists_coeff_list (E : ℤ) (M : ℕ) (vs : List ℚ)
    (hv : ∀ v ∈ vs, ∃ c : ℤ, c.natAbs ≤ M ∧ v = (c : ℚ) * (10 : ℚ) ^ E) :
    ∃ cs : List ℤ, vs = cs.map (fun c : ℤ => (c : ℚ) * (10 : ℚ) ^ E)
      ∧ cs.length = vs.length
      ∧ (cs.map Int.natAbs).sum ≤ vs.length * M := by
  induction vs with
  | nil => exact ⟨[], rfl, rfl, by simp⟩
  | cons v vs ih =>
      obtain ⟨c, hcM, hcv⟩ := hv v (List.mem_cons_self v vs)
      obtain ⟨cs, hmap, hlen, hsum⟩ :=
        ih (fun w hw => hv w (List.mem_cons_of_mem _ hw))
      refine ⟨c :: cs, ?_, by simp [hlen], ?_⟩
      · rw [List.map_cons, ← hmap, ← hcv]
      · simp only [List.map_cons, List.sum_cons, List.length_cons]
        calc c.natAbs + (cs.map Int.natAbs).sum ≤ M + vs.length * M := by
              exact Nat.add_le_add hcM hsum
          _ = (vs.length + 1) * M := by ring

theorem sum_map_grid (E : ℤ) (cs : List ℤ) :
    ((cs.map (fun c : ℤ => (c : ℚ) * (10 : ℚ) ^ E)).sum)
      = ((cs.sum : ℤ) : ℚ) * (10 : ℚ) ^ E := by
  induction cs with
  | nil => simp
  | cons c cs ih =>
      simp only [List.map_cons, List.sum_cons, ih]
      push_cast
      ring

theorem foldl_add16_eq_sum (E : ℤ) (M : ℕ) (vs : List ℚ)
    (hv : ∀ v ∈ vs, ∃ c : ℤ, c.natAbs ≤ M ∧ v = (c : ℚ) * (10 : ℚ) ^ E)
    (hb : vs.length * M < 10 ^ 16) :
    List.foldl add16 0 vs = vs.sum := by
  obtain ⟨cs, hmap, hlen, hsum⟩ := exists_coeff_list E M vs hv
  have h0 : (0 : ℚ) = ((0 : ℤ) : ℚ) * (10 : ℚ) ^ E := by simp
  rw [hmap, h0, foldl_add16_grid E cs 0 (by simpa using lt_of_le_of_lt hsum hb),
    sum_map_grid]
  simp

/-! ### Values carried by the contributions -/

theorem soldFiatContrib_elim (iv : Interval) (t : Trade) (p : DateTime × ℚ)
    (h : soldFiatContrib iv t = some p) :
    t.totalPrice = some p.2 ∧
      ∃ d, t.ts = some d ∧ p.1 = floorDT d iv := by
  unfold soldFiatContrib at h
  by_cases h1 : t.asset ≠ ASSET
  · rw [if_pos h1] at h
    exact Option.noConfusion h
  · rw [if_neg h1] at h
    by_cases h2 : t.fiat ≠ FIAT
    · rw [if_pos h2] at h
      exact Option.noConfusion h
    · rw [if_neg h2] at h
      cases hts : t.ts with
      | none =>
          rw [hts] at h
          exact Option.noConfusion h
      | some dts =>
          rw [hts] at h
          simp only at h
          by_cases hc : pyUpper (t.orderStatus.getD ("")) ∈ cancelledStatuses
          · rw [if_pos hc] at h
            exact Option.noConfusion h
          · rw [if_neg hc] at h
            by_cases hs : pyUpper (t.orderStatus.getD ("")) ≠ "COMPLETED" ∧
                pyUpper (t.orderStatus.getD ("")) ≠ "FINISHED" ∧
                pyUpper (t.orderStatus.getD ("")) ≠ "SUCCESS"
            · rw [if_pos hs] at h
              exact Option.noConfusion h
            · rw [if_neg hs] at h
              cases ha : t.amount with
              | none =>
                  rw [ha] at h
                  simp at h
              | some a =>
                  cases hp : t.totalPrice with
                  | none =>
                      rw [ha, hp] at h
                      simp at h
                  | some pr =>
                      rw [ha, hp] at h
                      simp only at h
                      have h2 := Option.some.inj h
                      subst h2
                      exact ⟨rfl, dts, rfl, rfl⟩

theorem soldCryptoContrib_elim (iv : Interval) (t : Trade) (p : DateTime × ℚ)
    (h : soldCryptoContrib iv t = some p) :
    t.amount = some p.2 ∧
      ∃ d, t.ts = some d ∧ p.1 = floorDT d iv := by
  unfold soldCryptoContrib at h
  by_cases h1 : t.asset ≠ ASSET
  · rw [if_pos h1] at h
    exact Option.noConfusion h
  · rw [if_neg h1] at h
    by_cases h2 : t.fiat ≠ FIAT
    · rw [if_pos h2] at h
      exact Option.noConfusion h
    · rw [if_neg h2] at h
      cases hts : t.ts with
      | none =>
          rw [hts] at h
          exact Option.noConfusion h
      | some dts =>
          rw [hts] at h
          simp only at h
          by_cases hc : pyUpper (t.orderStatus.getD ("")) ∈ cancelledStatuses
          · rw [if_pos hc] at h
            exact Option.noConfusion h
          · rw [if_neg hc] at h
            by_cases hs : pyUpper (t.orderStatus.getD ("")) ≠ "COMPLETED" ∧
                pyUpper (t.orderStatus.getD ("")) ≠ "FINISHED" ∧
                pyUpper (t.orderStatus.getD ("")) ≠ "SUCCESS"
            · rw [if_pos hs] at h
              exact Option.noConfusion h
            · rw [if_neg hs] at h
              cases ha : t.amount with
              | none =>
                  rw [ha] at h
                  simp at h
              | some a =>
                  cases hp : t.totalPrice with
                  | none =>
                      rw [ha, hp] at h
                      simp at h
                  | some pr =>
                      rw [ha, hp] at h
                      simp only at h
                      have h2 := Option.some.inj h
                      subst h2
                      exact ⟨rfl, dts, rfl, rfl⟩

theorem boughtFiatContrib_elim (iv : Interval) (r : OrderRow) (p : DateTime × ℚ)
    (h : boughtFiatContrib iv r = some p) :
    r.uah = some p.2 ∧
      ∃ d, r.created = some d ∧ p.1 = floorDT d iv := by
  unfold boughtFiatContrib at h
  cases hcr : r.created with
  | none =>
      rw [hcr] at h
      exact Option.noConfusion h
  | some c =>
      rw [hcr] at h
      simp only at h
      cases hu : r.uah with
      | none =>
          cases hs : r.usdt with
          | none =>
              rw [hu, hs] at h
              simp at h
          | some s =>
              rw [hu, hs] at h
              simp at h
      | some u =>
          cases hs : r.usdt with
          | none =>
              rw [hu, hs] at h
              simp at h
          | some s =>
              rw [hu, hs] at h
              simp only at h
              have h2 := Option.some.inj h
              subst h2
              exact ⟨rfl, c, rfl, rfl⟩

theorem boughtCryptoContrib_elim (iv : Interval) (r : OrderRow)
    (p : DateTime × ℚ) (h : boughtCryptoContrib iv r = some p) :
    r.usdt = some p.2 ∧
      ∃ d, r.created = some d ∧ p.1 = floorDT d iv := by
  unfold boughtCryptoContrib at h
  cases hcr : r.created with
  | none =>
      rw [hcr] at h
      exact Option.noConfusion h
  | some c =>
      rw [hcr] at h
      simp only at h
      cases hu : r.uah with
      | none =>
          cases hs : r.usdt with
          | none =>
              rw [hu, hs] at h
              simp at h
          | some s =>
              rw [hu, hs] at h
              simp at h
      | some u =>
          cases hs : r.usdt with
          | none =>
              rw [hu, hs] at h
              simp at h
          | some s =>
              rw [hu, hs] at h
              simp only at h
              have h2 := Option.some.inj h
              subst h2
              exact ⟨rfl, c, rfl, rfl⟩

theorem txContrib_elim (iv : Interval) (tr : Transaction) (p : DateTime × ℚ)
    (h : txContrib iv tr = some p) :
    (∃ a : ℚ, tr.amount = some a ∧ (p.2 = a ∨ p.2 = round16 (-a))) ∧
      ∃ d, tr.created_at = some d ∧ p.1 = floorDT d iv := by
  unfold txContrib at h
  by_cases h1 : tr.currency ≠ ASSET
  · rw [if_pos h1] at h
    exact Option.noConfusion h
  · rw [if_neg h1] at h
    cases hc : tr.created_at with
    | none =>
        rw [hc] at h
        exact Option.noConfusion h
    | some c =>
        rw [hc] at h
        simp only at h
        cases ha : tr.amount with
        | none =>
            rw [ha] at h
            simp at h
        | some a =>
            rw [ha] at h
            simp only at h
            have h2 := Option.some.inj h
            subst h2
            refine ⟨?_, c, rfl, rfl⟩
            by_cases hd : pyLower (tr.kind.getD ("")) = "debit"
            · exact ⟨a, rfl, Or.inr (by simp [hd])⟩
            · exact ⟨a, rfl, Or.inl (by simp [hd])⟩

/-- The per-bucket value stream a decimal accumulator folds: the values of
the contributions keyed at the bucket. -/
def contribVals {α : Type} (F : α → Option (DateTime × ℚ)) (l : List α)
    (b : DateTime) : List ℚ :=
  ((l.filterMap F).filter (fun p => decide (p.1 = b))).map (fun p => p.2)

theorem mem_contribVals {α : Type} (F : α → Option (DateTime × ℚ))
    (l : List α) (b : DateTime) (v : ℚ) (hv : v ∈ contribVals F l b) :
    ∃ x ∈ l, ∃ p : DateTime × ℚ, F x = some p ∧ p.2 = v := by
  unfold contribVals at hv
  simp only [List.mem_map, List.mem_filter, List.mem_filterMap] at hv
  obtain ⟨p, ⟨⟨x, hx, hFx⟩, _⟩, hpv⟩ := hv
  exact ⟨x, hx, p, hFx, hpv⟩

theorem contribVals_length {α : Type} (F : α → Option (DateTime × ℚ))
    (l : List α) (b : DateTime) : (contribVals F l b).length ≤ l.length := by
  unfold contribVals
  rw [List.length_map]
  exact le_trans (List.length_filter_le _ _) (List.length_filterMap_le _ _)

theorem contribVals_perm {α : Type} (F : α → Option (DateTime × ℚ))
    (l1 l2 : List α) (hp : l1.Perm l2) (b : DateTime) :
    (contribVals F l1 b).Perm (contribVals F l2 b) :=
  ((hp.filterMap F).filter _).map _

theorem trades_soldFiat_foldl (iv : Interval) (l : List Trade) (b : DateTime) :
    (aggregate_trades_binance l iv).soldFiat b
      = List.foldl add16 0 (contribVals (soldFiatContrib iv) l b) := by
  unfold aggregate_trades_binance contribVals
  rw [aggregate_trades_soldFiat, applyQ_apply]

theorem trades_soldCrypto_foldl (iv : Interval) (l : List Trade) (b : DateTime) :
    (aggregate_trades_binance l iv).soldCrypto b
      = List.foldl add16 0 (contribVals (soldCryptoContrib iv) l b) := by
  unfold aggregate_trades_binance contribVals
  rw [aggregate_trades_soldCrypto, applyQ_apply]

theorem trades_cancelled_count (iv : Interval) (l : List Trade) (b : DateTime) :
    (aggregate_trades_binance l iv).cancelledCounts b
      = ((l.filterMap (cancelledContrib iv)).filter
          (fun x => decide (x = b))).length := by
  unfold aggregate_trades_binance
  rw [aggregate_trades_cancelled, applyN_apply]
  exact Nat.zero_add _

theorem orders_boughtFiat_foldl (iv : Interval) (l : List OrderRow)
    (b : DateTime) :
    (aggregate_internal_orders_csv l iv).boughtFiat b
      = List.foldl add16 0 (contribVals (boughtFiatContrib iv) l b) := by
  unfold aggregate_internal_orders_csv contribVals
  rw [aggregate_orders_boughtFiat, applyQ_apply]

theorem orders_boughtCrypto_foldl (iv : Interval) (l : List OrderRow)
    (b : DateTime) :
    (aggregate_internal_orders_csv l iv).boughtCrypto b
      = List.foldl add16 0 (contribVals (boughtCryptoContrib iv) l b) := by
  unfold aggregate_internal_orders_csv contribVals
  rw [aggregate_orders_boughtCrypto, applyQ_apply]

theorem orders_count (iv : Interval) (l : List OrderRow) (b : DateTime) :
    (aggregate_internal_orders_csv l iv).orderCounts b
      = ((l.filterMap (orderCountContrib iv)).filter
          (fun x => decide (x = b))).length := by
  unfold aggregate_internal_orders_csv
  rw [aggregate_orders_orderCounts, applyN_apply]
  exact Nat.zero_add _

theorem tx_foldl (iv : Interval) (l : List Transaction) (b : DateTime) :
    aggregate_transactions l iv b
      = List.foldl add16 0 (contribVals (txContrib iv) l b) := by
  unfold aggregate_transactions contribVals
  rw [aggregate_transactions_eq, applyQ_apply]

/-! ### Claim C8: order-independence of the aggregation folds -/

/-- A completed USDT/UAH trade of totalPrice `10^16` (17 significant digits
arise as soon as anything small is added to it). -/
def tradeBig : Trade :=
  ⟨"USDT", "UAH", some ⟨2025, 12, 1, 12, 0, 0, 0⟩, some 1, some (10 ^ 16),
    some ("COMPLETED")⟩

/-- A completed USDT/UAH trade of totalPrice 4. -/
def tradeSmall : Trade :=
  ⟨"USDT", "UAH", some ⟨2025, 12, 1, 13, 0, 0, 0⟩, some 1, some 4,
    some ("COMPLETED")⟩

/-- Counterexample for claim C8: at working precision 16, decimal addition is
commutative but not associative, so folding order matters.  Folding
`10^16, 4, 4` into the day bucket gives `10^16` (each `+4` rounds away), while
the permutation `4, 4, 10^16` gives `10^16 + 10` (the exact `10^16 + 8` rounds
half-to-even up to the even 17th digit).  The two event lists are permutations
of each other yet produce different `sold_fiat` sums. -/
theorem claim_C8_counterexample :
    List.Perm [tradeBig, tradeSmall, tradeSmall]
        [tradeSmall, tradeSmall, tradeBig] ∧
    (aggregate_trades_binance [tradeBig, tradeSmall, tradeSmall]
        Interval.day).soldFiat ⟨2025, 12, 1, 0, 0, 0, 0⟩ = 10 ^ 16 ∧
    (aggregate_trades_binance [tradeSmall, tradeSmall, tradeBig]
        Interval.day).soldFiat ⟨2025, 12, 1, 0, 0, 0, 0⟩ = 10 ^ 16 + 10 ∧
    ((10 ^ 16 : ℚ) ≠ 10 ^ 16 + 10) :=
  ⟨by decide, by decide, by decide, by norm_num⟩

/-- Claim C8, corrected: the per-bucket aggregates of
`aggregate_trades_binance` are invariant under permutation of the trade list
provided all parsed amounts lie on a common decimal grid `c · 10^E` with total
magnitude below `10^16` (then every intermediate rounded sum is exact and the
fold computes the exact rational sum, which is permutation-invariant); the
cancelled counts are invariant for the same reason, counting being exact.
Without the grid hypothesis the invariance fails (see the counterexample). -/
theorem claim_C8_amended (iv : Interval) (l1 l2 : List Trade)
    (hperm : l1.Perm l2) (E : ℤ) (M : ℕ)
    (hgrid : ∀ t ∈ l1, ∀ q : ℚ,
      t.amount = some q ∨ t.totalPrice = some q →
      ∃ c : ℤ, c.natAbs ≤ M ∧ q = (c : ℚ) * (10 : ℚ) ^ E)
    (hbound : l1.length * M < 10 ^ 16) :
    (aggregate_trades_binance l1 iv).cancelledCounts
        = (aggregate_trades_binance l2 iv).cancelledCounts ∧
    (aggregate_trades_binance l1 iv).soldFiat
        = (aggregate_trades_binance l2 iv).soldFiat ∧
    (aggregate_trades_binance l1 iv).soldCrypto
        = (aggregate_trades_binance l2 iv).soldCrypto := by
  refine ⟨funext fun b => ?_, funext fun b => ?_, funext fun b => ?_⟩
  · rw [trades_cancelled_count, trades_cancelled_count,
      ((hperm.filterMap _).filter _).length_eq]
  · rw [trades_soldFiat_foldl, trades_soldFiat_foldl]
    have hvp := contribVals_perm (soldFiatContrib iv) l1 l2 hperm b
    have hg1 : ∀ v ∈ contribVals (soldFiatContrib iv) l1 b,
        ∃ c : ℤ, c.natAbs ≤ M ∧ v = (c : ℚ) * (10 : ℚ) ^ E := by
      intro v hv
      obtain ⟨t, htl, p, hFp, hpv⟩ := mem_contribVals _ _ _ _ hv
      exact hgrid t htl v (Or.inr (hpv ▸ (soldFiatContrib_elim iv t p hFp).1))
    have hg2 : ∀ v ∈ contribVals (soldFiatContrib iv) l2 b,
        ∃ c : ℤ, c.natAbs ≤ M ∧ v = (c : ℚ) * (10 : ℚ) ^ E :=
      fun v hv => hg1 v (hvp.mem_iff.mpr hv)
    have hb1 : (contribVals (soldFiatContrib iv) l1 b).length * M < 10 ^ 16 :=
      lt_of_le_of_lt (Nat.mul_le_mul_right M (contribVals_length _ _ _)) hbound
    have hb2 : (contribVals (soldFiatContrib iv) l2 b).length * M < 10 ^ 16 := by
      rw [← hvp.length_eq]
      exact hb1
    rw [foldl_add16_eq_sum E M _ hg1 hb1, foldl_add16_eq_sum E M _ hg2 hb2,
      hvp.sum_eq]
  · rw [trades_soldCrypto_foldl, trades_soldCrypto_foldl]
    have hvp := contribVals_perm (soldCryptoContrib iv) l1 l2 hperm b
    have hg1 : ∀ v ∈ contribVals (soldCryptoContrib iv) l1 b,
        ∃ c : ℤ, c.natAbs ≤ M ∧ v = (c : ℚ) * (10 : ℚ) ^ E := by
      intro v hv
      obtain ⟨t, htl, p, hFp, hpv⟩ := mem_contribVals _ _ _ _ hv
      exact hgrid t htl v (Or.inl (hpv ▸ (soldCryptoContrib_elim iv t p hFp).1))
    have hg2 : ∀ v ∈ contribVals (soldCryptoContrib iv) l2 b,
        ∃ c : ℤ, c.natAbs ≤ M ∧ v = (c : ℚ) * (10 : ℚ) ^ E :=
      fun v hv => hg1 v (hvp.mem_iff.mpr hv)
    have hb1 : (contribVals (soldCryptoContrib iv) l1 b).length * M < 10 ^ 16 :=
      lt_of_le_of_lt (Nat.mul_le_mul_right M (contribVals_length _ _ _)) hbound
    have hb2 : (contribVals (soldCryptoContrib iv) l2 b).length * M
        < 10 ^ 16 := by
      rw [← hvp.length_eq]
      exact hb1
    rw [foldl_add16_eq_sum E M _ hg1 hb1, foldl_add16_eq_sum E M _ hg2 hb2,
      hvp.sum_eq]

/-- A completed trade with small integer amounts, for the C8 witness. -/
def tradeWA : Trade :=
  ⟨"USDT", "UAH", some ⟨2025, 12, 1, 12, 0, 0, 0⟩, some 1, some 4,
    some ("COMPLETED")⟩

/-- A cancelled trade with small integer amounts, for the C8 witness. -/
def tradeWB : Trade :=
  ⟨"USDT", "UAH", some ⟨2025, 12, 1, 13, 0, 0, 0⟩, some 2, some 5,
    some ("CANCELLED")⟩

theorem claim_C8_amended_witness :
    (aggregate_trades_binance [tradeWA, tradeWB] Interval.day).cancelledCounts
        = (aggregate_trades_binance [tradeWB, tradeWA]
            Interval.day).cancelledCounts ∧
    (aggregate_trades_binance [tradeWA, tradeWB] Interval.day).soldFiat
        = (aggregate_trades_binance [tradeWB, tradeWA] Interval.day).soldFiat ∧
    (aggregate_trades_binance [tradeWA, tradeWB] Interval.day).soldCrypto
        = (aggregate_trades_binance [tradeWB, tradeWA]
            Interval.day).soldCrypto :=
  claim_C8_amended Interval.day [tradeWA, tradeWB] [tradeWB, tradeWA]
    (by decide) 0 5
    (by
      intro t ht q hq
      rcases List.mem_cons.mp ht with rfl | ht2
      · rcases hq with h | h
        · refine ⟨1, by norm_num, ?_⟩
          injection h with h
          rw [← h]
          norm_num
        · refine ⟨4, by norm_num, ?_⟩
          injection h with h
          rw [← h]
          norm_num
      · rcases List.mem_cons.mp ht2 with rfl | ht3
        · rcases hq with h | h
          · refine ⟨2, by norm_num, ?_⟩
            injection h with h
            rw [← h]
            norm_num
          · refine ⟨5, by norm_num, ?_⟩
            injection h with h
            rw [← h]
            norm_num
        · exact absurd ht3 (List.not_mem_nil t))
    (by norm_num)

/-! ### Claim C6: conservation and the drop policy -/

theorem cancelledContrib_key (iv : Interval) (t : Trade) (k : DateTime)
    (h : cancelledContrib iv t = some k) :
    ∃ d, t.ts = some d ∧ k = floorDT d iv := by
  unfold cancelledContrib at h
  by_cases h1 : t.asset ≠ ASSET
  · rw [if_pos h1] at h
    exact Option.noConfusion h
  · rw [if_neg h1] at h
    by_cases h2 : t.fiat ≠ FIAT
    · rw [if_pos h2] at h
      exact Option.noConfusion h
    · rw [if_neg h2] at h
      cases hts : t.ts with
      | none =>
          rw [hts] at h
          exact Option.noConfusion h
      | some dts =>
          rw [hts] at h
          simp only at h
          by_cases hc : pyUpper (t.orderStatus.getD ("")) ∈ cancelledStatuses
          · rw [if_pos hc] at h
            exact ⟨dts, rfl, (Option.some.inj h).symm⟩
          · rw [if_neg hc] at h
            exact Option.noConfusion h

theorem orderCountContrib_key (iv : Interval) (r : OrderRow) (k : DateTime)
    (h : orderCountContrib iv r = some k) :
    ∃ d, r.created = some d ∧ k = floorDT d iv := by
  unfold orderCountContrib at h
  cases hcr : r.created with
  | none =>
      rw [hcr] at h
      exact Option.noConfusion h
  | some c =>
      rw [hcr] at h
      simp only at h
      cases hu : r.uah with
      | none =>
          cases hs : r.usdt with
          | none =>
              rw [hu, hs] at h
              simp at h
          | some s =>
              rw [hu, hs] at h
              simp at h
      | some u =>
          cases hs : r.usdt with
          | none =>
              rw [hu, hs] at h
              simp at h
          | some s =>
              rw [hu, hs] at h
              simp only at h
              exact ⟨c, rfl, (Option.some.inj h).symm⟩

/-- The generated bucket lists are duplicate-free (they are strictly
increasing). -/
theorem genBucketsI_nodup (iv : Interval) (f t : DateTime)
    (hvf : ValidDT f) (hvt : ValidDT t) (hft : dtLe f t) :
    (genBucketsI f t iv).Nodup := by
  obtain ⟨_, _, _, hmem, hchain⟩ := genBucketsI_spec iv f t hvf hvt hft
  have hlt : List.Chain' dtLt (genBucketsI f t iv) :=
    chain'_imp_mem (fun a b hPa hR => hR.symm ▸ nextBucket_lt iv a hPa)
      (genBucketsI f t iv) hmem hchain
  have hpw := List.chain'_iff_pairwise.mp hlt
  exact hpw.imp (fun hab heq => by
    subst heq
    exact absurd hab (Nat.lt_irrefl _))

theorem IntervalStats.eq_of_fields (s1 s2 : IntervalStats)
    (h0 : s1.buckets = s2.buckets)
    (h1 : s1.bought_fiat = s2.bought_fiat)
    (h2 : s1.bought_crypto = s2.bought_crypto)
    (h3 : s1.order_counts = s2.order_counts)
    (h4 : s1.sold_fiat = s2.sold_fiat)
    (h5 : s1.sold_crypto = s2.sold_crypto)
    (h6 : s1.cancelled_counts = s2.cancelled_counts)
    (h7 : s1.tx_flows = s2.tx_flows) : s1 = s2 := by
  cases s1
  cases s2
  simp only [IntervalStats.mk.injEq]
  exact ⟨h0, h1, h2, h3, h4, h5, h6, h7⟩

theorem populated_congr {M : Type} [Zero M] (bs : List DateTime)
    (g1 g2 : DateTime → M) (h : ∀ b ∈ bs, g1 b = g2 b) :
    (fun b => if b ∈ bs then g1 b else 0)
      = fun b => if b ∈ bs then g2 b else 0 := by
  funext b
  by_cases hb : b ∈ bs
  · rw [if_pos hb, if_pos hb, h b hb]
  · rw [if_neg hb, if_neg hb]

theorem assembleStats_buckets (f t : DateTime) (iv : Interval)
    (rows : List OrderRow) (trades : List Trade) (txs : List Transaction) :
    (assembleStats f t iv rows trades txs).buckets = genBucketsI f t iv := rfl

theorem assembleStats_bought_fiat (f t : DateTime) (iv : Interval)
    (rows : List OrderRow) (trades : List Trade) (txs : List Transaction) :
    (assembleStats f t iv rows trades txs).bought_fiat
      = fun b => if b ∈ genBucketsI f t iv
          then (aggregate_internal_orders_csv rows iv).boughtFiat b else 0 := rfl

theorem assembleStats_bought_crypto (f t : DateTime) (iv : Interval)
    (rows : List OrderRow) (trades : List Trade) (txs : List Transaction) :
    (assembleStats f t iv rows trades txs).bought_crypto
      = fun b => if b ∈ genBucketsI f t iv
          then (aggregate_internal_orders_csv rows iv).boughtCrypto b
          else 0 := rfl

theorem assembleStats_order_counts (f t : DateTime) (iv : Interval)
    (rows : List OrderRow) (trades : List Trade) (txs : List Transaction) :
    (assembleStats f t iv rows trades txs).order_counts
      = fun b => if b ∈ genBucketsI f t iv
          then (aggregate_internal_orders_csv rows iv).orderCounts b
          else 0 := rfl

theorem assembleStats_sold_fiat (f t : DateTime) (iv : Interval)
    (rows : List OrderRow) (trades : List Trade) (txs : List Transaction) :
    (assembleStats f t iv rows trades txs).sold_fiat
      = fun b => if b ∈ genBucketsI f t iv
          then (aggregate_trades_binance trades iv).soldFiat b else 0 := rfl

theorem assembleStats_sold_crypto (f t : DateTime) (iv : Interval)
    (rows : List OrderRow) (trades : List Trade) (txs : List Transaction) :
    (assembleStats f t iv rows trades txs).sold_crypto
      = fun b => if b ∈ genBucketsI f t iv
          then (aggregate_trades_binance trades iv).soldCrypto b else 0 := rfl

theorem assembleStats_cancelled_counts (f t : DateTime) (iv : Interval)
    (rows : List OrderRow) (trades : List Trade) (txs : List Transaction) :
    (assembleStats f t iv rows trades txs).cancelled_counts
      = fun b => if b ∈ genBucketsI f t iv
          then (aggregate_trades_binance trades iv).cancelledCounts b
          else 0 := rfl

theorem assembleStats_tx_flows (f t : DateTime) (iv : Interval)
    (rows : List OrderRow) (trades : List Trade) (txs : List Transaction) :
    (assembleStats f t iv rows trades txs).tx_flows
      = fun b => if b ∈ genBucketsI f t iv
          then aggregate_transactions txs iv b else 0 := rfl

theorem contribVals_middle {α : Type} (F : α → Option (DateTime × ℚ))
    (l1 l2 : List α) (x : α) (b : DateTime)
    (hx : ∀ p : DateTime × ℚ, F x = some p → p.1 ≠ b) :
    contribVals F (l1 ++ x :: l2) b = contribVals F (l1 ++ l2) b := by
  unfold contribVals
  rw [List.filterMap_append, List.filterMap_append, List.filterMap_cons]
  cases hFx : F x with
  | none => rfl
  | some p =>
      rw [List.filter_append, List.filter_append,
        List.filter_cons_of_neg (by simp [hx p hFx])]

theorem keys_middle {α : Type} (G : α → Option DateTime)
    (l1 l2 : List α) (x : α) (b : DateTime)
    (hx : ∀ k, G x = some k → k ≠ b) :
    ((l1 ++ x :: l2).filterMap G).filter (fun y => decide (y = b))
      = ((l1 ++ l2).filterMap G).filter (fun y => decide (y = b)) := by
  rw [List.filterMap_append, List.filterMap_append, List.filterMap_cons]
  cases hGx : G x with
  | none => rfl
  | some k =>
      rw [List.filter_append, List.filter_append,
        List.filter_cons_of_neg (by simp [hx k hGx])]

/-- Conservation of an exactly-folded decimal accumulator: summing the
per-bucket folds over a duplicate-free bucket list regroups to the direct sum
of the in-range contribution values. -/
theorem conservation_Q {α : Type} (F : α → Option (DateTime × ℚ))
    (evs : List α) (bs : List DateTime) (hnd : bs.Nodup) (E : ℤ) (M : ℕ)
    (hgrid : ∀ x ∈ evs, ∀ p : DateTime × ℚ, F x = some p →
      ∃ c : ℤ, c.natAbs ≤ M ∧ p.2 = (c : ℚ) * (10 : ℚ) ^ E)
    (hbound : evs.length * M < 10 ^ 16) :
    (bs.map (fun b => List.foldl add16 0 (contribVals F evs b))).sum
      = (((evs.filterMap F).filter (fun p => decide (p.1 ∈ bs))).map
          (fun p => p.2)).sum := by
  have hmap : bs.map (fun b => List.foldl add16 0 (contribVals F evs b))
      = bs.map (fun b => (contribVals F evs b).sum) := by
    apply List.map_congr_left
    intro b hb
    apply foldl_add16_eq_sum E M
    · intro v hv
      obtain ⟨x, hx, p, hFp, hpv⟩ := mem_contribVals _ _ _ _ hv
      obtain ⟨c, hc1, hc2⟩ := hgrid x hx p hFp
      exact ⟨c, hc1, hpv ▸ hc2⟩
    · exact lt_of_le_of_lt
        (Nat.mul_le_mul_right M (contribVals_length _ _ _)) hbound
  rw [hmap]
  exact sum_filter_buckets (evs.filterMap F) bs hnd

/-- Conservation of a counting accumulator. -/
theorem conservation_N {α : Type} (G : α → Option DateTime)
    (evs : List α) (bs : List DateTime) (hnd : bs.Nodup) :
    (bs.map (fun b => ((evs.filterMap G).filter
        (fun x => decide (x = b))).length)).sum
      = ((evs.filterMap G).filter (fun x => decide (x ∈ bs))).length :=
  length_filter_buckets (evs.filterMap G) bs hnd

attribute [local semireducible] genLoop genBucketsI in
/-- Counterexample for claim C6: with completed trades of totalPrice
`10^16, 4, 4` all in the day bucket 2025-12-01 of the period
2025-12-01..2025-12-02, the sum of `sold_fiat` across the populated buckets is
`10^16` (each `+4` is rounded away at working precision 16), while the direct
sum of `totalPrice` over the accepted in-range trades is `10^16 + 8`: rounded
accumulation loses mass, so exact conservation fails. -/
theorem claim_C6_counterexample :
    ((genBucketsI ⟨2025, 12, 1, 0, 0, 0, 0⟩ ⟨2025, 12, 2, 0, 0, 0, 0⟩
        Interval.day).map
      (assembleStats ⟨2025, 12, 1, 0, 0, 0, 0⟩ ⟨2025, 12, 2, 0, 0, 0, 0⟩
        Interval.day [] [tradeBig, tradeSmall, tradeSmall] []).sold_fiat).sum
      = 10 ^ 16 ∧
    ((([tradeBig, tradeSmall, tradeSmall].filterMap
          (soldFiatContrib Interval.day)).filter
        (fun p => decide (p.1 ∈ genBucketsI ⟨2025, 12, 1, 0, 0, 0, 0⟩
          ⟨2025, 12, 2, 0, 0, 0, 0⟩ Interval.day))).map
      (fun p => p.2)).sum = 10 ^ 16 + 8 ∧
    ((10 ^ 16 : ℚ) ≠ 10 ^ 16 + 8) :=
  ⟨by decide, by decide, by norm_num⟩

/-- Claim C6, corrected: over the generated (duplicate-free) bucket list of a
valid period, conservation of the two counting accumulators holds for every
event set, the populated series has exactly the generated buckets, and an
event whose floored timestamp falls outside the generated bucket list,
inserted anywhere in its event list, leaves the whole populated series
unchanged — all without side conditions.  Conservation of the five decimal
accumulators holds under the common-grid hypothesis that makes every
intermediate rounded addition exact; without it decimal conservation fails
(see the counterexample). -/
theorem claim_C6_amended (f t : DateTime) (iv : Interval)
    (hvf : ValidDT f) (hvt : ValidDT t) (hft : dtLe f t)
    (rows : List OrderRow) (trades : List Trade) (txs : List Transaction)
    (tr0 : Trade) (ta tb : List Trade)
    (htr0 : ∀ d, tr0.ts = some d → floorDT d iv ∉ genBucketsI f t iv)
    (r0 : OrderRow) (ra rb : List OrderRow)
    (hr0 : ∀ d, r0.created = some d → floorDT d iv ∉ genBucketsI f t iv)
    (x0 : Transaction) (xa xb : List Transaction)
    (hx0 : ∀ d, x0.created_at = some d → floorDT d iv ∉ genBucketsI f t iv) :
    (assembleStats f t iv rows trades txs).buckets = genBucketsI f t iv ∧
    ((genBucketsI f t iv).map
        (assembleStats f t iv rows trades txs).order_counts).sum
      = ((rows.filterMap (orderCountContrib iv)).filter
          (fun k => decide (k ∈ genBucketsI f t iv))).length ∧
    ((genBucketsI f t iv).map
        (assembleStats f t iv rows trades txs).cancelled_counts).sum
      = ((trades.filterMap (cancelledContrib iv)).filter
          (fun k => decide (k ∈ genBucketsI f t iv))).length ∧
    (∀ (E : ℤ) (M : ℕ),
      (∀ r ∈ rows, ∀ q : ℚ, r.uah = some q ∨ r.usdt = some q →
        ∃ c : ℤ, c.natAbs ≤ M ∧ q = (c : ℚ) * (10 : ℚ) ^ E) →
      (∀ x ∈ trades, ∀ q : ℚ,
        x.amount = some q ∨ x.totalPrice = some q →
        ∃ c : ℤ, c.natAbs ≤ M ∧ q = (c : ℚ) * (10 : ℚ) ^ E) →
      (∀ x ∈ txs, ∀ q : ℚ, x.amount = some q →
        ∃ c : ℤ, c.natAbs ≤ M ∧ q = (c : ℚ) * (10 : ℚ) ^ E) →
      rows.length * M < 10 ^ 16 → trades.length * M < 10 ^ 16 →
      txs.length * M < 10 ^ 16 →
      ((genBucketsI f t iv).map
          (assembleStats f t iv rows trades txs).bought_fiat).sum
        = (((rows.filterMap (boughtFiatContrib iv)).filter
            (fun p => decide (p.1 ∈ genBucketsI f t iv))).map
              (fun p => p.2)).sum ∧
      ((genBucketsI f t iv).map
          (assembleStats f t iv rows trades txs).bought_crypto).sum
        = (((rows.filterMap (boughtCryptoContrib iv)).filter
            (fun p => decide (p.1 ∈ genBucketsI f t iv))).map
              (fun p => p.2)).sum ∧
      ((genBucketsI f t iv).map
          (assembleStats f t iv rows trades txs).sold_fiat).sum
        = (((trades.filterMap (soldFiatContrib iv)).filter
            (fun p => decide (p.1 ∈ genBucketsI f t iv))).map
              (fun p => p.2)).sum ∧
      ((genBucketsI f t iv).map
          (assembleStats f t iv rows trades txs).sold_crypto).sum
        = (((trades.filterMap (soldCryptoContrib iv)).filter
            (fun p => decide (p.1 ∈ genBucketsI f t iv))).map
              (fun p => p.2)).sum ∧
      ((genBucketsI f t iv).map
          (assembleStats f t iv rows trades txs).tx_flows).sum
        = (((txs.filterMap (txContrib iv)).filter
            (fun p => decide (p.1 ∈ genBucketsI f t iv))).map
              (fun p => p.2)).sum) ∧
    assembleStats f t iv rows (ta ++ tr0 :: tb) txs
      = assembleStats f t iv rows (ta ++ tb) txs ∧
    assembleStats f t iv (ra ++ r0 :: rb) trades txs
      = assembleStats f t iv (ra ++ rb) trades txs ∧
    assembleStats f t iv rows trades (xa ++ x0 :: xb)
      = assembleStats f t iv rows trades (xa ++ xb) := by
  have hnd : (genBucketsI f t iv).Nodup := genBucketsI_nodup iv f t hvf hvt hft
  refine ⟨rfl, ?_, ?_, ?_, ?_, ?_, ?_⟩
  · have h1 : (genBucketsI f t iv).map
        (assembleStats f t iv rows trades txs).order_counts
        = (genBucketsI f t iv).map (fun b =>
            ((rows.filterMap (orderCountContrib iv)).filter
              (fun x => decide (x = b))).length) := by
      apply List.map_congr_left
      intro b hb
      simp only [assembleStats_order_counts]
      rw [if_pos hb, orders_count]
    rw [h1]
    exact conservation_N (orderCountContrib iv) rows (genBucketsI f t iv) hnd
  · have h1 : (genBucketsI f t iv).map
        (assembleStats f t iv rows trades txs).cancelled_counts
        = (genBucketsI f t iv).map (fun b =>
            ((trades.filterMap (cancelledContrib iv)).filter
              (fun x => decide (x = b))).length) := by
      apply List.map_congr_left
      intro b hb
      simp only [assembleStats_cancelled_counts]
      rw [if_pos hb, trades_cancelled_count]
    rw [h1]
    exact conservation_N (cancelledContrib iv) trades (genBucketsI f t iv) hnd
  · intro E M hgrid_rows hgrid_trades hgrid_txs hb_rows hb_trades hb_txs
    refine ⟨?_, ?_, ?_, ?_, ?_⟩
    · have h1 : (genBucketsI f t iv).map
          (assembleStats f t iv rows trades txs).bought_fiat
          = (genBucketsI f t iv).map (fun b =>
              List.foldl add16 0
                (contribVals (boughtFiatContrib iv) rows b)) := by
        apply List.map_congr_left
        intro b hb
        simp only [assembleStats_bought_fiat]
        rw [if_pos hb, orders_boughtFiat_foldl]
      rw [h1]
      refine conservation_Q (boughtFiatContrib iv) rows (genBucketsI f t iv)
        hnd E M ?_ hb_rows
      intro x hx p hFp
      exact hgrid_rows x hx p.2 (Or.inl (boughtFiatContrib_elim iv x p hFp).1)
    · have h1 : (genBucketsI f t iv).map
          (assembleStats f t iv rows trades txs).bought_crypto
          = (genBucketsI f t iv).map (fun b =>
              List.foldl add16 0
                (contribVals (boughtCryptoContrib iv) rows b)) := by
        apply List.map_congr_left
        intro b hb
        simp only [assembleStats_bought_crypto]
        rw [if_pos hb, orders_boughtCrypto_foldl]
      rw [h1]
      refine conservation_Q (boughtCryptoContrib iv) rows (genBucketsI f t iv)
        hnd E M ?_ hb_rows
      intro x hx p hFp
      exact hgrid_rows x hx p.2
        (Or.inr (boughtCryptoContrib_elim iv x p hFp).1)
    · have h1 : (genBucketsI f t iv).map
          (assembleStats f t iv rows trades txs).sold_fiat
          = (genBucketsI f t iv).map (fun b =>
              List.foldl add16 0
                (contribVals (soldFiatContrib iv) trades b)) := by
        apply List.map_congr_left
        intro b hb
        simp only [assembleStats_sold_fiat]
        rw [if_pos hb, trades_soldFiat_foldl]
      rw [h1]
      refine conservation_Q (soldFiatContrib iv) trades (genBucketsI f t iv)
        hnd E M ?_ hb_trades
      intro x hx p hFp
      exact hgrid_trades x hx p.2 (Or.inr (soldFiatContrib_elim iv x p hFp).1)
    · have h1 : (genBucketsI f t iv).map
          (assembleStats f t iv rows trades txs).sold_crypto
          = (genBucketsI f t iv).map (fun b =>
              List.foldl add16 0
                (contribVals (soldCryptoContrib iv) trades b)) := by
        apply List.map_congr_left
        intro b hb
        simp only [assembleStats_sold_crypto]
        rw [if_pos hb, trades_soldCrypto_foldl]
      rw [h1]
      refine conservation_Q (soldCryptoContrib iv) trades (genBucketsI f t iv)
        hnd E M ?_ hb_trades
      intro x hx p hFp
      exact hgrid_trades x hx p.2
        (Or.inl (soldCryptoContrib_elim iv x p hFp).1)
    · have h1 : (genBucketsI f t iv).map
          (assembleStats f t iv rows trades txs).tx_flows
          = (genBucketsI f t iv).map (fun b =>
              List.foldl add16 0 (contribVals (txContrib iv) txs b)) := by
        apply List.map_congr_left
        intro b hb
        simp only [assembleStats_tx_flows]
        rw [if_pos hb, tx_foldl]
      rw [h1]
      refine conservation_Q (txContrib iv) txs (genBucketsI f t iv)
        hnd E M ?_ hb_txs
      intro x hx p hFp
      obtain ⟨⟨a, ha, hval⟩, _⟩ := txContrib_elim iv x p hFp
      obtain ⟨c, hc1, hc2⟩ := hgrid_txs x hx a ha
      rcases hval with hval | hval
      · exact ⟨c, hc1, by rw [hval, hc2]⟩
      · refine ⟨-c, by simpa using hc1, ?_⟩
        have hM : M < 10 ^ 16 := by
          have hlen : 1 ≤ txs.length :=
            List.length_pos.mpr (List.ne_nil_of_mem hx)
          calc M = 1 * M := (one_mul M).symm
            _ ≤ txs.length * M := Nat.mul_le_mul_right M hlen
            _ < 10 ^ 16 := hb_txs
        have hneg : -a = ((-c : ℤ) : ℚ) * (10 : ℚ) ^ E := by
          rw [hc2]
          push_cast
          ring
        rw [hval, hneg, round16_eq_self_of_grid (-c) E
          (by simpa using lt_of_le_of_lt hc1 hM)]
  · apply IntervalStats.eq_of_fields
    · rfl
    · rfl
    · rfl
    · rfl
    · rw [assembleStats_sold_fiat, assembleStats_sold_fiat]
      apply populated_congr
      intro b hb
      rw [trades_soldFiat_foldl, trades_soldFiat_foldl]
      congr 1
      apply contribVals_middle
      intro p hp heq
      obtain ⟨_, d, hd, hkey⟩ := soldFiatContrib_elim iv tr0 p hp
      rw [← heq, hkey] at hb
      exact htr0 d hd hb
    · rw [assembleStats_sold_crypto, assembleStats_sold_crypto]
      apply populated_congr
      intro b hb
      rw [trades_soldCrypto_foldl, trades_soldCrypto_foldl]
      congr 1
      apply contribVals_middle
      intro p hp heq
      obtain ⟨_, d, hd, hkey⟩ := soldCryptoContrib_elim iv tr0 p hp
      rw [← heq, hkey] at hb
      exact htr0 d hd hb
    · rw [assembleStats_cancelled_counts, assembleStats_cancelled_counts]
      apply populated_congr
      intro b hb
      rw [trades_cancelled_count, trades_cancelled_count]
      congr 1
      apply keys_middle
      intro k hk heq
      obtain ⟨d, hd, hkey⟩ := cancelledContrib_key iv tr0 k hk
      rw [← heq, hkey] at hb
      exact htr0 d hd hb
    · rfl
  · apply IntervalStats.eq_of_fields
    · rfl
    · rw [assembleStats_bought_fiat, assembleStats_bought_fiat]
      apply populated_congr
      intro b hb
      rw [orders_boughtFiat_foldl, orders_boughtFiat_foldl]
      congr 1
      apply contribVals_middle
      intro p hp heq
      obtain ⟨_, d, hd, hkey⟩ := boughtFiatContrib_elim iv r0 p hp
      rw [← heq, hkey] at hb
      exact hr0 d hd hb
    · rw [assembleStats_bought_crypto, assembleStats_bought_crypto]
      apply populated_congr
      intro b hb
      rw [orders_boughtCrypto_foldl, orders_boughtCrypto_foldl]
      congr 1
      apply contribVals_middle
      intro p hp heq
      obtain ⟨_, d, hd, hkey⟩ := boughtCryptoContrib_elim iv r0 p hp
      rw [← heq, hkey] at hb
      exact hr0 d hd hb
    · rw [assembleStats_order_counts, assembleStats_order_counts]
      apply populated_congr
      intro b hb
      rw [orders_count, orders_count]
      congr 1
      apply keys_middle
      intro k hk heq
      obtain ⟨d, hd, hkey⟩ := orderCountContrib_key iv r0 k hk
      rw [← heq, hkey] at hb
      exact hr0 d hd hb
    · rfl
    · rfl
    · rfl
    · rfl
  · apply IntervalStats.eq_of_fields
    · rfl
    · rfl
    · rfl
    · rfl
    · rfl
    · rfl
    · rfl
    · rw [assembleStats_tx_flows, assembleStats_tx_flows]
      apply populated_congr
      intro b hb
      rw [tx_foldl, tx_foldl]
      congr 1
      apply contribVals_middle
      intro p hp heq
      obtain ⟨_, d, hd, hkey⟩ := txContrib_elim iv x0 p hp
      rw [← heq, hkey] at hb
      exact hx0 d hd hb

/-- Period start of the C6 witness. -/
def c6From : DateTime := ⟨2025, 12, 1, 0, 0, 0, 0⟩

/-- Period end of the C6 witness. -/
def c6To : DateTime := ⟨2025, 12, 2, 0, 0, 0, 0⟩

/-- One in-range order row (uah 3, usdt 2). -/
def c6Rows : List OrderRow :=
  [⟨some ⟨2025, 12, 1, 10, 0, 0, 0⟩, some 3, some 2⟩]

/-- One in-range completed trade (amount 2, totalPrice 7). -/
def c6Trades : List Trade :=
  [⟨"USDT", "UAH", some ⟨2025, 12, 1, 12, 0, 0, 0⟩, some 2, some 7,
    some ("COMPLETED")⟩]

/-- One in-range debit transaction (amount 5). -/
def c6Txs : List Transaction :=
  [⟨"USDT", some ⟨2025, 12, 1, 14, 0, 0, 0⟩, some 5, some ("debit")⟩]

/-- A trade stamped outside the witness period (2026-01-15). -/
def c6DropTrade : Trade :=
  ⟨"USDT", "UAH", some ⟨2026, 1, 15, 9, 0, 0, 0⟩, some 1, some 2,
    some ("COMPLETED")⟩

/-- An order row stamped outside the witness period. -/
def c6DropRow : OrderRow := ⟨some ⟨2026, 1, 15, 9, 0, 0, 0⟩, some 1, some 2⟩

/-- A transaction stamped outside the witness period. -/
def c6DropTx : Transaction :=
  ⟨"USDT", some ⟨2026, 1, 15, 9, 0, 0, 0⟩, some 1, none⟩

attribute [local semireducible] genLoop genBucketsI in
theorem claim_C6_amended_witness :
    (assembleStats c6From c6To Interval.day c6Rows c6Trades c6Txs).buckets
        = genBucketsI c6From c6To Interval.day ∧
    ((genBucketsI c6From c6To Interval.day).map
        (assembleStats c6From c6To Interval.day c6Rows c6Trades
          c6Txs).order_counts).sum
      = ((c6Rows.filterMap (orderCountContrib Interval.day)).filter
          (fun k => decide (k ∈ genBucketsI c6From c6To Interval.day))).length ∧
    ((genBucketsI c6From c6To Interval.day).map
        (assembleStats c6From c6To Interval.day c6Rows c6Trades
          c6Txs).cancelled_counts).sum
      = ((c6Trades.filterMap (cancelledContrib Interval.day)).filter
          (fun k => decide (k ∈ genBucketsI c6From c6To Interval.day))).length ∧
    (∀ (E : ℤ) (M : ℕ),
      (∀ r ∈ c6Rows, ∀ q : ℚ, r.uah = some q ∨ r.usdt = some q →
        ∃ c : ℤ, c.natAbs ≤ M ∧ q = (c : ℚ) * (10 : ℚ) ^ E) →
      (∀ x ∈ c6Trades, ∀ q : ℚ,
        x.amount = some q ∨ x.totalPrice = some q →
        ∃ c : ℤ, c.natAbs ≤ M ∧ q = (c : ℚ) * (10 : ℚ) ^ E) →
      (∀ x ∈ c6Txs, ∀ q : ℚ, x.amount = some q →
        ∃ c : ℤ, c.natAbs ≤ M ∧ q = (c : ℚ) * (10 : ℚ) ^ E) →
      c6Rows.length * M < 10 ^ 16 → c6Trades.length * M < 10 ^ 16 →
      c6Txs.length * M < 10 ^ 16 →
      ((genBucketsI c6From c6To Interval.day).map
          (assembleStats c6From c6To Interval.day c6Rows c6Trades
            c6Txs).bought_fiat).sum
        = (((c6Rows.filterMap (boughtFiatContrib Interval.day)).filter
            (fun p => decide (p.1 ∈ genBucketsI c6From c6To
              Interval.day))).map (fun p => p.2)).sum ∧
      ((genBucketsI c6From c6To Interval.day).map
          (assembleStats c6From c6To Interval.day c6Rows c6Trades
            c6Txs).bought_crypto).sum
        = (((c6Rows.filterMap (boughtCryptoContrib Interval.day)).filter
            (fun p => decide (p.1 ∈ genBucketsI c6From c6To
              Interval.day))).map (fun p => p.2)).sum ∧
      ((genBucketsI c6From c6To Interval.day).map
          (assembleStats c6From c6To Interval.day c6Rows c6Trades
            c6Txs).sold_fiat).sum
        = (((c6Trades.filterMap (soldFiatContrib Interval.day)).filter
            (fun p => decide (p.1 ∈ genBucketsI c6From c6To
              Interval.day))).map (fun p => p.2)).sum ∧
      ((genBucketsI c6From c6To Interval.day).map
          (assembleStats c6From c6To Interval.day c6Rows c6Trades
            c6Txs).sold_crypto).sum
        = (((c6Trades.filterMap (soldCryptoContrib Interval.day)).filter
            (fun p => decide (p.1 ∈ genBucketsI c6From c6To
              Interval.day))).map (fun p => p.2)).sum ∧
      ((genBucketsI c6From c6To Interval.day).map
          (assembleStats c6From c6To Interval.day c6Rows c6Trades
            c6Txs).tx_flows).sum
        = (((c6Txs.filterMap (txContrib Interval.day)).filter
            (fun p => decide (p.1 ∈ genBucketsI c6From c6To
              Interval.day))).map (fun p => p.2)).sum) ∧
    assembleStats c6From c6To Interval.day c6Rows
        (c6DropTrade :: c6Trades) c6Txs
      = assembleStats c6From c6To Interval.day c6Rows c6Trades c6Txs ∧
    assembleStats c6From c6To Interval.day (c6DropRow :: c6Rows) c6Trades
        c6Txs
      = assembleStats c6From c6To Interval.day c6Rows c6Trades c6Txs ∧
    assembleStats c6From c6To Interval.day c6Rows c6Trades
        (c6DropTx :: c6Txs)
      = assembleStats c6From c6To Interval.day c6Rows c6Trades c6Txs :=
  claim_C6_amended c6From c6To Interval.day (by decide) (by decide) (by decide)
    c6Rows c6Trades c6Txs
    c6DropTrade [] c6Trades
    (by
      intro d hd
      have h2 := Option.some.inj hd
      subst h2
      decide)
    c6DropRow [] c6Rows
    (by
      intro d hd
      have h2 := Option.some.inj hd
      subst h2
      decide)
    c6DropTx [] c6Txs
    (by
      intro d hd
      have h2 := Option.some.inj hd
      subst h2
      decide)

end StatsBot
